
import Mathlib

/-!
Verification of the ScheduleOptimizationProblem repository.

Shallow embedding of `src/main.py` (class `Schedule` and its helpers) and of
the numeric-input handlers in `src/app/main.py`.

Modelling conventions:
* The 3-D numpy object array `self.schedule` (classrooms × days × time slots,
  each cell `None` or a `Lesson`) is embedded as a total function
  `Grid : Coord → Option Lesson` together with the dimensions recorded in
  `Config`; in-place numpy writes become `Function.update`.
* A `Lesson` keeps the instructor's id, the lesson-type ordinal and the list of
  participant (client) ids; `get_cost` and `improve_results` only ever read
  `instructor.id` and `participants.shape[0]`, so this loses nothing the
  claims mention.
* Python `random.choice` / `random.randint` draws are supplied by explicit
  oracle arguments (an index reduced modulo the length of the list drawn
  from), and the float comparison `s < exp(delta / current_temp)` of the
  Metropolis criterion is supplied as an oracle boolean, since floating point
  `exp` is not representable in the embedding.  Temperatures are embedded as
  exact rationals.
* Python exceptions (numpy out-of-bounds indexing, `list.remove` misses,
  `random.choice` on an empty list) are embedded as `Option`/`Except`
  failures; `while` loops are given explicit fuel and return `none` when the
  fuel runs out before the loop's own exit condition holds.
-/

/-- One lesson cell: the id of the `Instructor` object stored in the cell, the
`LessonType` ordinal and the ids of the participating clients
(`src/main.py`, class `Lesson`). -/
structure Lesson where
  instructorId : Nat
  lessonType : Nat
  participants : List Nat
deriving DecidableEq

/-- A `(classroom, day, time_slot)` index into the schedule array. -/
abbrev Coord := Nat × Nat × Nat

/-- The schedule array: `None`/`Lesson` per cell, total over coordinates; only
the in-range part (see `Config`) is ever read. -/
abbrev Grid := Coord → Option Lesson

/-- The constructor parameters of `Schedule` that the embedded methods read
(`src/main.py`, `Schedule.__init__`), plus the number of loaded instructors
(`self.instructors.shape[0]`). -/
structure Config where
  class_num : Nat
  day_num : Nat
  time_slot_num : Nat
  nInstructors : Nat
  ticket_cost : Int
  hour_pay : Int
  pay_for_presence : Int
  class_renting_cost : Int
deriving DecidableEq

/-- The row-major enumeration `(c, d, ts)` of all cells, in the loop order of
`get_cost` / the order `np.argwhere` reports indices. -/
def coordsList (cfg : Config) : List Coord :=
  List.range cfg.class_num ×ˢ (List.range cfg.day_num ×ˢ List.range cfg.time_slot_num)

/-- The cells as a finite set. -/
def coordsFinset (cfg : Config) : Finset Coord :=
  Finset.range cfg.class_num ×ˢ Finset.range cfg.day_num ×ˢ Finset.range cfg.time_slot_num

/-- A 1-classroom, 2-day, 2-slot schedule with two lessons, used to
instantiate the hypothesis-bearing theorems. -/
def cfgW1 : Config := ⟨1, 2, 2, 2, 40, 50, 50, 200⟩

/-- Concrete grid for `cfgW1`: instructor 0 teaches on day 0 slot 0 (2
participants), instructor 1 on day 1 slot 0 (1 participant). -/
def gW1 : Grid := fun x =>
  if x = (0, 0, 0) then some ⟨0, 1, [7, 8]⟩
  else if x = (0, 1, 0) then some ⟨1, 2, [9]⟩ else none

/-- Grid holding one lesson whose instructor id 5 is outside the two loaded
instructors of `cfgW1`. -/
def gW1bad : Grid := fun x => if x = (0, 0, 0) then some ⟨5, 1, [7]⟩ else none

/-! ## Cost evaluator (`Schedule.get_cost`, src/main.py lines 226-250)

The Python loop keeps three accumulators: `participants_sum`,
`instructors_hours` (a `nInstructors × day_num` array indexed by
`instructor.id`) and `class_per_day`.  The two arrays are embedded as total
functions updated pointwise; the numpy `IndexError` raised when
`instructor.id` is outside the allocated rows becomes an `Option` failure. -/

/-- Accumulator state of the `get_cost` triple loop. -/
structure CostAcc where
  participants_sum : Nat
  instructors_hours : Nat → Nat → Nat
  class_per_day : Nat → Nat → Nat

/-- One cell of the `get_cost` loop body (src/main.py lines 242-245).  A cell
holding a lesson whose `instructor.id` is outside the `instructors_hours`
rows raises `IndexError`, embedded as `none`. -/
def costStep (cfg : Config) (g : Grid) (acc : CostAcc) (x : Coord) : Option CostAcc :=
  match g x with
  | none => some acc
  | some L =>
      if L.instructorId < cfg.nInstructors then
        some { participants_sum := acc.participants_sum + L.participants.length
               instructors_hours := fun i d =>
                 if i = L.instructorId ∧ d = x.2.1 then acc.instructors_hours i d + 1
                 else acc.instructors_hours i d
               class_per_day := fun c d =>
                 if c = x.1 ∧ d = x.2.1 then 1 else acc.class_per_day c d }
      else none

/-- `Schedule.get_cost`: fold the loop body over all cells in row-major order,
then combine the accumulators exactly as the Python return expression does
(`ticket_cost * participants_sum - hour_pay * instructors_hours.sum()
- pay_for_presence * (instructors_hours > 0).sum()
- class_renting_cost * class_per_day.sum()`). -/
def get_cost (cfg : Config) (g : Grid) : Option Int :=
  (List.foldlM (costStep cfg g) ⟨0, fun _ _ => 0, fun _ _ => 0⟩ (coordsList cfg)).map
    fun acc =>
      cfg.ticket_cost * (acc.participants_sum : Int) -
        cfg.hour_pay *
          ((∑ i ∈ Finset.range cfg.nInstructors, ∑ d ∈ Finset.range cfg.day_num,
            acc.instructors_hours i d : Nat) : Int) -
        cfg.pay_for_presence *
          (((Finset.range cfg.nInstructors ×ˢ Finset.range cfg.day_num).filter
            (fun p => 0 < acc.instructors_hours p.1 p.2)).card : Int) -
        cfg.class_renting_cost *
          ((∑ c ∈ Finset.range cfg.class_num, ∑ d ∈ Finset.range cfg.day_num,
            acc.class_per_day c d : Nat) : Int)

/-! Claim-side quantities, defined directly from the grid contents. -/

/-- Total participant count over occupied cells. -/
def totalParticipants (cfg : Config) (g : Grid) : Nat :=
  ((coordsList cfg).map fun x => (g x).elim 0 fun L => L.participants.length).sum

/-- Number of lessons taught by instructor `i` on day `d`. -/
def lessonsOf (cfg : Config) (g : Grid) (i d : Nat) : Nat :=
  ((coordsList cfg).filter fun x =>
    x.2.1 = d ∧ ∃ L, g x = some L ∧ L.instructorId = i).length

/-- Total number of lessons, summed per (instructor, day) pair. -/
def hoursSum (cfg : Config) (g : Grid) : Nat :=
  ∑ i ∈ Finset.range cfg.nInstructors, ∑ d ∈ Finset.range cfg.day_num, lessonsOf cfg g i d

/-- Number of (instructor, day) pairs with at least one lesson. -/
def presencePairs (cfg : Config) (g : Grid) : Nat :=
  ((Finset.range cfg.nInstructors ×ˢ Finset.range cfg.day_num).filter
    (fun p => 0 < lessonsOf cfg g p.1 p.2)).card

/-- Number of cells of day `d` of classroom `c` that hold a lesson. -/
def cellsUsed (cfg : Config) (g : Grid) (c d : Nat) : Nat :=
  ((coordsList cfg).filter fun x => x.1 = c ∧ x.2.1 = d ∧ g x ≠ none).length

/-- Number of (classroom, day) pairs with at least one lesson. -/
def classroomDays (cfg : Config) (g : Grid) : Nat :=
  ((Finset.range cfg.class_num ×ˢ Finset.range cfg.day_num).filter
    (fun p => 0 < cellsUsed cfg g p.1 p.2)).card

/-- Number of occupied cells. -/
def occupiedCount (cfg : Config) (g : Grid) : Nat :=
  ((coordsList cfg).filter fun x => g x ≠ none).length

/-- Every lesson in the (in-range part of the) grid names an instructor id
that is a valid row of the `instructors_hours` array. -/
def InBounds (cfg : Config) (g : Grid) : Prop :=
  ∀ x ∈ coordsList cfg, ∀ L, g x = some L → L.instructorId < cfg.nInstructors

instance instDecidableInBounds (cfg : Config) (g : Grid) : Decidable (InBounds cfg g) :=
  decidable_of_iff (∀ x ∈ coordsList cfg, ∀ L ∈ g x, L.instructorId < cfg.nInstructors) (by
    unfold InBounds
    refine forall₂_congr fun x _ => forall_congr' fun L => ?_
    rw [Option.mem_def])


/-! ## Neighbor operator (`Schedule.get_neighbor`, src/main.py lines 252-262) -/

/-- `np.argwhere(current_solution != None)`: the occupied cells, in row-major
order. -/
def not_none_id_list (cfg : Config) (g : Grid) : List Coord :=
  (coordsList cfg).filter fun x => g x ≠ none

/-- `np.argwhere(current_solution == None)`: the empty cells, in row-major
order. -/
def none_id_list (cfg : Config) (g : Grid) : List Coord :=
  (coordsList cfg).filter fun x => g x = none

/-- The occupied cell picked by `random.choice(not_none_id_list)`, the random
draw being supplied as an index `po` reduced modulo the list length. -/
def random_not_none_id (cfg : Config) (g : Grid) (po : Nat) : Coord :=
  (not_none_id_list cfg g).getD (po % (not_none_id_list cfg g).length) (0, 0, 0)

/-- The empty cell picked by `random.choice(none_id_list)`. -/
def random_none_id (cfg : Config) (g : Grid) (pe : Nat) : Coord :=
  (none_id_list cfg g).getD (pe % (none_id_list cfg g).length) (0, 0, 0)

/-- The assignment pair `current_solution[random_none_id] =
current_solution[random_not_none_id]; current_solution[random_not_none_id] =
None` (also the move pattern of `improve_results`). -/
def relocate (g : Grid) (src tgt : Coord) : Grid :=
  Function.update (Function.update g tgt (g src)) src none

/-- `Schedule.get_neighbor`: move the lesson of a randomly chosen occupied
cell into a randomly chosen empty cell.  `random.choice` on an empty list
raises `IndexError`, embedded as `none`.  The Python function mutates the
caller's array in place and returns the very same reference; the embedding
returns the updated grid and the annealing loop reproduces the aliasing (see
`innerStep`). -/
def get_neighbor (cfg : Config) (g : Grid) (po pe : Nat) : Option Grid :=
  if (not_none_id_list cfg g).isEmpty ∨ (none_id_list cfg g).isEmpty then none
  else some (relocate g (random_not_none_id cfg g po) (random_none_id cfg g pe))

/-- The multiset of (instructor, category, participants) lessons present in
the grid. -/
def lessonsMultiset (cfg : Config) (g : Grid) : Multiset Lesson :=
  ((coordsList cfg).filterMap g : List Lesson)

/-- The neighbor grid `get_neighbor cfgW1 gW1 0 0` produces. -/
def gW1n : Grid := relocate gW1 (0, 0, 0) (0, 0, 1)


/-! ## Annealing optimizer (`Schedule.simulated_annealing`, src/main.py
lines 264-307) -/

/-- The random draws one inner iteration consumes: the two `random.choice`
indices used by `get_neighbor` and the outcome of the Metropolis test
`random.uniform(0, 1) < np.exp(delta / current_temp)`, supplied as a boolean
because floating point `exp` has no exact embedding. -/
structure SAChoice where
  srcPick : Nat
  tgtPick : Nat
  acceptWorse : Bool

/-- The mutable locals of `simulated_annealing`. -/
structure SAState where
  current_solution : Grid
  current_cost : Int
  best_solution : Grid
  best_cost : Int
  current_temp : ℚ
  counter : Nat
  total_counter : Nat

/-- The optimizer parameters (floats in Python, embedded as rationals). -/
structure SAParams where
  alpha : ℚ
  initial_temp : ℚ
  n_iter_one_temp : Nat
  min_temp : ℚ
  epsilon : ℚ
  n_iter_without_improvement : Nat

/-- One inner iteration (src/main.py lines 283-297).  `get_neighbor` mutates
`current_solution` in place and returns the same array, so
`neighbor_solution` and `current_solution` alias one mutated grid: the
post-state's `current_solution` is the mutated grid in every branch —
including the reject branch, which rolls nothing back — while `current_cost`
is updated only in the two accept branches. -/
def innerStep (cfg : Config) (oracle : Nat → SAChoice) (s : SAState) : Option SAState :=
  let t := s.total_counter + 1
  let ch := oracle t
  match get_neighbor cfg s.current_solution ch.srcPick ch.tgtPick with
  | none => none
  | some nb =>
    match get_cost cfg nb with
    | none => none
    | some nc =>
      if 0 ≤ nc - s.current_cost then
        if s.best_cost < nc then
          some { current_solution := nb, current_cost := nc,
                 best_solution := nb, best_cost := nc,
                 current_temp := s.current_temp, counter := s.counter, total_counter := t }
        else
          some { s with current_solution := nb, current_cost := nc, total_counter := t }
      else if ch.acceptWorse then
        some { s with current_solution := nb, current_cost := nc, total_counter := t }
      else
        some { s with current_solution := nb, total_counter := t }

/-- The inner `for j in range(0, n_iter_one_temp)` loop. -/
def innerLoop (cfg : Config) (oracle : Nat → SAChoice) : Nat → SAState → Option SAState
  | 0, s => some s
  | n + 1, s => (innerStep cfg oracle s).bind (innerLoop cfg oracle n)

/-- One outer iteration: the inner loop, the cooling step
`current_temp = alpha * current_temp` and the stagnation bookkeeping
(src/main.py lines 282-304). -/
def epochStep (cfg : Config) (prm : SAParams) (oracle : Nat → SAChoice) (s : SAState) :
    Option SAState :=
  (innerLoop cfg oracle prm.n_iter_one_temp s).map fun s₁ =>
    let s₂ : SAState := { s₁ with current_temp := prm.alpha * s₁.current_temp }
    if |(s₂.current_cost : ℚ) - (s₂.best_cost : ℚ)| < prm.epsilon then
      { s₂ with counter := s₂.counter + 1 }
    else
      { s₂ with counter := 0 }

/-- The `while current_temp > min_temp and counter < n_iter_without_improvement`
loop, with fuel: `none` when the fuel runs out while the condition still
holds. -/
def saLoop (cfg : Config) (prm : SAParams) (oracle : Nat → SAChoice) :
    Nat → SAState → Option SAState
  | 0, s =>
    if prm.min_temp < s.current_temp ∧ s.counter < prm.n_iter_without_improvement then none
    else some s
  | fuel + 1, s =>
    if prm.min_temp < s.current_temp ∧ s.counter < prm.n_iter_without_improvement then
      (epochStep cfg prm oracle s).bind (saLoop cfg prm oracle fuel)
    else some s

/-- The locals after lines 270-279: `current_solution` and `best_solution` are
deep copies of `self.schedule`, both cost calls return the same value `c₀`
(`get_cost` is a pure function of the grid), the temperature is
`initial_temp` and both counters are `0`. -/
def initState (prm : SAParams) (g₀ : Grid) (c₀ : Int) : SAState :=
  ⟨g₀, c₀, g₀, c₀, prm.initial_temp, 0, 0⟩

/-- What `simulated_annealing` leaves behind: the grid installed into
`self.schedule` (line 306) and the Python return value
`(best_cost, total_counter)` (line 307). -/
structure SAResult where
  schedule : Grid
  ret : Int × Nat

/-- `Schedule.simulated_annealing` on an already initialized schedule
(`initial_solution=True`; with `initial_solution=False` the run would first
rebuild `self.schedule` via `generate_random_schedule` and then proceed
identically from that grid, covered here by quantifying over `g₀`). -/
def simulated_annealing (cfg : Config) (prm : SAParams) (oracle : Nat → SAChoice)
    (fuel : Nat) (g₀ : Grid) : Option SAResult :=
  (get_cost cfg g₀).bind fun c₀ =>
    (saLoop cfg prm oracle fuel (initState prm g₀ c₀)).map fun s =>
      ⟨s.best_solution, (s.best_cost, s.total_counter)⟩

/-- Annealing parameters whose loop condition is immediately false
(`initial_temp = min_temp`), used to instantiate hypotheses concretely. -/
def prmW : SAParams := ⟨1, 1, 1, 1, 1, 5⟩

/-- A constant random oracle: always pick index 0 and reject worse moves. -/
def orW : Nat → SAChoice := fun _ => ⟨0, 0, false⟩

/-- A concrete annealing state over `gW1` whose `current_cost` field makes the
next proposal a worsening move (`delta = -480`). -/
def sW7 : SAState := ⟨gW1, 0, gW1, 0, 1, 0, 0⟩

/-- The result of the `prmW` run on `gW1`, whose loop body never executes. -/
def resW : SAResult := ⟨gW1, (-480, 0)⟩

/-- The state `innerStep` reaches from `sW7`: the proposed relocation is
rejected, yet the working grid keeps the mutation while `current_cost`
keeps its old value. -/
def sW7' : SAState := ⟨gW1n, 0, gW1, 0, 1, 0, 1⟩


/-! ## Numeric input handlers (src/app/main.py, `Optimize.on_text` lines
80-84 and `ScheduleParameters.on_text` lines 178-182) -/

/-- Models CPython `int(text)` on ASCII input: optional surrounding
whitespace, an optional sign, then one or more decimal digits; anything else
raises `ValueError`, embedded as `none`.  (Underscore digit separators are
not modelled.) -/
def int_of_string (t : String) : Option Int :=
  let cs := ((t.toList.dropWhile Char.isWhitespace).reverse.dropWhile Char.isWhitespace).reverse
  let parseNat : List Char → Option Nat := fun ds =>
    if ds.isEmpty ∨ ¬ ds.all Char.isDigit then none
    else some (ds.foldl (fun acc c => 10 * acc + (c.toNat - 48)) 0)
  match cs with
  | '+' :: rest => (parseNat rest).map fun n => (n : Int)
  | '-' :: rest => (parseNat rest).map fun n => -(n : Int)
  | rest => (parseNat rest).map fun n => (n : Int)

namespace Optimize

/-- `Optimize.on_text`: `try: self.parameters[parameter] =
int(input_parameter) except ValueError: self.parameters[parameter] = 0`.
The numeric entries of the `parameters` dict are embedded as a total map. -/
def on_text (parameters : String → Int) (parameter : String) (input_parameter : String) :
    String → Int :=
  match int_of_string input_parameter with
  | some k => Function.update parameters parameter k
  | none => Function.update parameters parameter 0

end Optimize

namespace ScheduleParameters

/-- `ScheduleParameters.on_text`: identical handling for the class-level
`schedule_parameters` dict. -/
def on_text (parameters : String → Int) (parameter : String) (input_parameter : String) :
    String → Int :=
  match int_of_string input_parameter with
  | some k => Function.update parameters parameter k
  | none => Function.update parameters parameter 0

end ScheduleParameters

/-- A representative numeric-parameter dictionary. -/
def paramsW : String → Int := fun _ => 50


/-! ## Random initializer (`Schedule.generate_random_schedule`, src/main.py
lines 197-224).

The method reshapes `self.schedule` to a linear array, so the embedding works
on `Nat → Option Lesson` with positions `0 .. class_num*day_num*time_slot_num`.
-/

/-- A client record (`Client`, src/main.py): id and selected lesson-type
ordinals. -/
structure Client where
  id : Nat
  selected_training : List Nat
deriving DecidableEq

/-- An instructor record (`Instructor`, src/main.py): id and qualification
lesson-type ordinals. -/
structure Instructor where
  id : Nat
  qualifications : List Nat
deriving DecidableEq

/-- Python `==` between an `Instructor` object and an `int`: `Instructor`
defines no `__eq__`, so the cross-type comparison is always `False`. -/
def instructorBeqInt (_ : Instructor) (_ : Nat) : Bool := false

/-- `list.remove(x)` on a Python list of `Instructor`s with `x` an `int`
(line 219 passes `self.schedule[ts].instructor.id`, not the object): remove
the first element comparing equal to `x`, raise `ValueError` if none does. -/
def list_remove (l : List Instructor) (x : Nat) : Except String (List Instructor) :=
  if l.any fun ins => instructorBeqInt ins x then
    Except.ok (l.eraseP fun ins => instructorBeqInt ins x)
  else Except.error "ValueError: list.remove(x): x not in list"

/-- `range(start, N, step)` for `0 < step`: the ascending positions below `N`
congruent to `start`. -/
def rangeStep (start N step : Nat) : List Nat :=
  (List.range N).filter fun p => start ≤ p ∧ (p - start) % step = 0

/-- The conflict-exclusion loop of lines 216-219: walk every linear position
sharing `lesson_id % (day_num * time_slot_num)` and, for each occupied cell,
remove its instructor from `all_instructors` — by `id`, the slip the
embedding preserves. -/
def exclude_conflicts (sched : Nat → Option Lesson) (N interval lesson_id : Nat)
    (all_instructors : List Instructor) : Except String (List Instructor) :=
  (rangeStep (lesson_id % interval) N interval).foldlM
    (fun acc p =>
      match sched p with
      | none => Except.ok acc
      | some L => list_remove acc L.instructorId)
    all_instructors

/-- The mutable locals of `generate_random_schedule` threaded through the
training loop: the linear schedule, the free-slot list and the greedy
counter `i`. -/
structure GenState where
  sched : Nat → Option Lesson
  free_ts : List Nat
  i : Nat

/-- Body of the `for training in range(num_of_trainings)` loop (lines
207-222): pick a slot (the next sequential index when `greedy`, else pop a
random free slot — `random.randint` fails on an empty list), run the
conflict exclusion, pick a random remaining instructor (`random.choice`
raises `IndexError` on an empty list) and store the lesson (participants
kept as client ids). -/
def place_training (N interval : Nat) (greedy : Bool) (slotPick instrPick : Nat)
    (lesson_type : Nat) (participants : List Nat)
    (st : GenState) (all_instructors : List Instructor) :
    Except String (GenState × List Instructor) := do
  let (lesson_id, free', i') ←
    if greedy then Except.ok (st.i, st.free_ts, st.i + 1)
    else if st.free_ts.isEmpty then
      Except.error "ValueError: empty range for randrange"
    else
      let idx := slotPick % st.free_ts.length
      Except.ok (st.free_ts.getD idx 0, st.free_ts.eraseIdx idx, st.i)
  let remaining ← exclude_conflicts st.sched N interval lesson_id all_instructors
  if remaining.isEmpty then Except.error "IndexError: cannot choose from an empty list"
  else
    let ins := remaining.getD (instrPick % remaining.length) ⟨0, []⟩
    if lesson_id < N then
      Except.ok (⟨Function.update st.sched lesson_id
        (some ⟨ins.id, lesson_type, participants⟩), free', i'⟩, remaining)
    else Except.error "IndexError: schedule index out of bounds"

/-- One lesson type of the outer loop (lines 202-222): filter the interested
clients and qualified instructors, split the clients into groups of
`max_clients_per_training` (`int(np.ceil(...))`, here as Nat ceiling
division) and place each group, threading the mutated `all_instructors`
list across the trainings of this type.  The oracles supply the random
draws, indexed by (lesson_type, training). -/
def run_lesson_type (N interval max_clients : Nat) (greedy : Bool)
    (clients : List Client) (instructors : List Instructor)
    (slotOracle instrOracle : Nat → Nat → Nat) (st : GenState) (lesson_type : Nat) :
    Except String GenState := do
  let all_participants := clients.filter fun c => c.selected_training.contains lesson_type
  let all_instructors := instructors.filter fun ins => ins.qualifications.contains lesson_type
  let num_of_trainings := (all_participants.length + max_clients - 1) / max_clients
  let r ← (List.range num_of_trainings).foldlM
    (fun (acc : GenState × List Instructor) training =>
      let participants :=
        ((all_participants.drop (training * max_clients)).take max_clients).map Client.id
      place_training N interval greedy (slotOracle lesson_type training)
        (instrOracle lesson_type training) lesson_type participants acc.1 acc.2)
    (st, all_instructors)
  Except.ok r.1

/-- `Schedule.generate_random_schedule`: start from the linearly reshaped
schedule with `free_ts = list(np.arange(N))` and `i = 0`, then loop over the
ten `LessonType` ordinals; returns the final linear schedule. -/
def generate_random_schedule (class_num day_num time_slot_num max_clients : Nat)
    (clients : List Client) (instructors : List Instructor) (greedy : Bool)
    (slotOracle instrOracle : Nat → Nat → Nat) (g0 : Nat → Option Lesson) :
    Except String (Nat → Option Lesson) := do
  let N := class_num * day_num * time_slot_num
  let interval := day_num * time_slot_num
  let st ← (List.range 10).foldlM
    (run_lesson_type N interval max_clients greedy clients instructors
      slotOracle instrOracle)
    (⟨g0, List.range N, 0⟩ : GenState)
  Except.ok st.sched

/-- Two clients both requesting lesson type 0. -/
def clientsW : List Client := [⟨0, [0]⟩, ⟨1, [0]⟩]

/-- Two instructors both qualified for lesson type 0. -/
def instructorsW : List Instructor := [⟨0, [0]⟩, ⟨1, [0]⟩]


/-! ## Consolidation pass (`Schedule.improve_results`, src/main.py
lines 310-385).

Python's `trainings` is a list of mutable `[d, timeslots, free_ts]` records
shared by reference with the sorted view `trainings2`; the embedding keeps
one canonical `records : List DayRec` (the `trainings` list) and models
`trainings2` as a list `perm` of indices into `records`, re-computed from the
current records at each `sorted(...)` call.  `trainings` is *not* reset per
classroom — records accumulated for earlier classrooms stay in scope, which
is the loop-scoping irregularity the spec flags. -/

/-- One `[d, timeslots, free_ts]` record. -/
structure DayRec where
  day : Nat
  timeslots : List Nat
  free_ts : List Nat
deriving DecidableEq

/-- The day scan of lines 319-326: the instructor's occupied slots and the
free slots of day `d` in classroom `c`.  A slot occupied by a different
instructor lands in neither list. -/
def scanDay (cfg : Config) (g : Grid) (c d instrId : Nat) : List Nat × List Nat :=
  ((List.range cfg.time_slot_num).filter fun ts =>
      match g (c, d, ts) with
      | some L => L.instructorId = instrId
      | none => false,
    (List.range cfg.time_slot_num).filter fun ts => g (c, d, ts) = none)

/-- Lines 318-328: append, for every day with at least one of the
instructor's lessons, a `[d, timeslots, free_ts]` record to `trainings`. -/
def scanClassroom (cfg : Config) (g : Grid) (c instrId : Nat)
    (trainings : List DayRec) : List DayRec :=
  trainings ++ (List.range cfg.day_num).filterMap fun d =>
    let sc := scanDay cfg g c d instrId
    if 0 < sc.1.length then some ⟨d, sc.1, sc.2⟩ else none

/-- Stable insertion into an index list ordered by ascending
`len(records[k].timeslots)`. -/
def insertIdxByLen (records : List DayRec) (k : Nat) : List Nat → List Nat
  | [] => [k]
  | j :: js =>
    if (records.getD j ⟨0, [], []⟩).timeslots.length <
        (records.getD k ⟨0, [], []⟩).timeslots.length then
      j :: insertIdxByLen records k js
    else k :: j :: js

/-- `sorted(trainings, key=lambda item: len(item[1]))` as a stable sort,
modelled as the sorted list of indices into `records`. -/
def sortIdxByLen (records : List DayRec) : List Nat :=
  (List.range records.length).foldr (insertIdxByLen records) []

/-- The mutable state of the repacking scan: the schedule, the canonical
record list (`trainings`), the sorted index view (`trainings2`) and the
`changed` flag. -/
structure RepackState where
  g : Grid
  records : List DayRec
  perm : List Nat
  changed : Bool

/-- A batch of the inner `for ts_iter in range(...)` moves: relocate, pair by
pair, slot `p.1` of day `dI` into slot `p.2` of day `dJ` (all in classroom
`c`). -/
def batchMove (c dI dJ : Nat) (pairs : List (Nat × Nat)) (g : Grid) : Grid :=
  pairs.foldl (fun h p => relocate h (c, dI, p.1) (c, dJ, p.2)) g

/-- `trainings2[k]` — the record at index `k` (records are list entries,
shared by reference between `trainings` and `trainings2`). -/
def recAt (records : List DayRec) (k : Nat) : DayRec :=
  records.getD k ⟨0, [], []⟩

/-- The grid after one drain batch: every occupied slot of `recA`'s day is
moved into the next free slot of `recB`'s day. -/
def drainStep (c : Nat) (recA recB : DayRec) (g : Grid) : Grid :=
  batchMove c recA.day recB.day (recA.timeslots.zip recB.free_ts) g

/-- The source record after its day is drained: occupied list cleared, the
vacated slots appended to its free list (lines 344, 355 / 366, 379). -/
def drainRecA (recA : DayRec) : DayRec :=
  ⟨recA.day, [], recA.free_ts ++ recA.timeslots⟩

/-- The target record after the drain: the used free slots appended to its
occupied list and removed from its free list (lines 342, 346, 352-353 /
368, 370, 376-377). -/
def drainRecB (recA recB : DayRec) : DayRec :=
  ⟨recB.day, recB.timeslots ++ recB.free_ts.take recA.timeslots.length,
    (recB.free_ts.take recA.timeslots.length).foldl (fun l ts => l.erase ts) recB.free_ts⟩

/-- The `for j in range(i+1, len(trainings2))` loop (lines 332-385).  Each
iteration resets `changed`, then either drains day `i` into day `j`'s free
slots (first branch, `len(timeslots_i) <= len(free_j)`), drains day `j` into
day `i`'s free slots (second branch, `len(free_i) > len(timeslots_j)`), or
does nothing.  After a non-empty batch `changed` is `True`, `trainings2` is
re-sorted from the mutated records, and the loop `break`s. -/
def jLoop (cfg : Config) (c i : Nat) : List Nat → RepackState → RepackState
  | [], st => st
  | j :: js, st =>
    let rec_i := recAt st.records (st.perm.getD i 0)
    let rec_j := recAt st.records (st.perm.getD j 0)
    if rec_i.timeslots.length ≤ rec_j.free_ts.length then
      let records' := (st.records.set (st.perm.getD i 0) (drainRecA rec_i)).set
        (st.perm.getD j 0) (drainRecB rec_i rec_j)
      let st' : RepackState := ⟨drainStep c rec_i rec_j st.g, records', st.perm, false⟩
      if 0 < rec_i.timeslots.length then
        ⟨st'.g, records', sortIdxByLen records', true⟩
      else jLoop cfg c i js st'
    else if rec_j.timeslots.length < rec_i.free_ts.length then
      let records' := (st.records.set (st.perm.getD j 0) (drainRecA rec_j)).set
        (st.perm.getD i 0) (drainRecB rec_j rec_i)
      let st' : RepackState := ⟨drainStep c rec_j rec_i st.g, records', st.perm, false⟩
      if 0 < rec_j.timeslots.length then
        ⟨st'.g, records', sortIdxByLen records', true⟩
      else jLoop cfg c i js st'
    else jLoop cfg c i js ⟨st.g, st.records, st.perm, false⟩

/-- The `for i in range(len(trainings2) - 1)` loop (line 331). -/
def iLoop (cfg : Config) (c : Nat) : List Nat → RepackState → RepackState
  | [], st => st
  | i :: is', st =>
    iLoop cfg c is' (jLoop cfg c i (List.range' (i + 1) (st.records.length - (i + 1))) st)

/-- The `for c in range(self.schedule.shape[0])` loop (lines 317-385): per
classroom, extend `trainings` by the scan of that classroom, sort, repack. -/
def classroomPass (cfg : Config) (instrId : Nat) :
    List Nat → Grid → List DayRec → Bool → Grid × List DayRec × Bool
  | [], g, trainings, changed => (g, trainings, changed)
  | c :: cs, g, trainings, changed =>
    let records := scanClassroom cfg g c instrId trainings
    let st := iLoop cfg c (List.range (records.length - 1))
      ⟨g, records, sortIdxByLen records, changed⟩
    classroomPass cfg instrId cs st.g st.records st.changed

/-- One `for instructor in self.instructors` sweep (lines 315-385), with
`trainings` freshly emptied per instructor. -/
def onePass (cfg : Config) (instructors : List Instructor) (g : Grid) (changed : Bool) :
    Grid × Bool :=
  instructors.foldl
    (fun acc ins =>
      let r := classroomPass cfg ins.id (List.range cfg.class_num) acc.1 [] acc.2
      (r.1, r.2.2))
    (g, changed)

/-- `Schedule.improve_results`: `changed = True; while changed: changed =
False; <one sweep>`, with fuel for the `while`; `none` when the fuel runs
out with `changed` still set. -/
def improve_results (cfg : Config) (instructors : List Instructor) :
    Nat → Grid → Option Grid
  | 0, _ => none
  | fuel + 1, g =>
    let r := onePass cfg instructors g false
    if r.2 then improve_results cfg instructors fuel r.1 else some r.1

/-- A record list is sound for grid `g` and classroom `c`: every record names
an in-range day, its `timeslots` are distinct in-range slots holding lessons,
its `free_ts` are distinct in-range empty slots. -/
def RecOK (cfg : Config) (g : Grid) (c : Nat) (r : DayRec) : Prop :=
  r.day < cfg.day_num ∧ r.timeslots.Nodup ∧ r.free_ts.Nodup ∧
    (∀ ts ∈ r.timeslots, ts < cfg.time_slot_num ∧ g (c, r.day, ts) ≠ none) ∧
    (∀ ts ∈ r.free_ts, ts < cfg.time_slot_num ∧ g (c, r.day, ts) = none)

/-- All records are sound and talk about pairwise distinct days. -/
def RecsOK (cfg : Config) (g : Grid) (c : Nat) (records : List DayRec) : Prop :=
  (∀ r ∈ records, RecOK cfg g c r) ∧ (records.map DayRec.day).Nodup

/-- The sorted view is a permutation of the record indices. -/
def PermOK (records : List DayRec) (perm : List Nat) : Prop :=
  perm.Nodup ∧ perm.length = records.length ∧ ∀ k ∈ perm, k < records.length

/-- 1 classroom × 2 days × 2 slots, one instructor; all four cost rates as in
the repository defaults. -/
def cfgC2 : Config := ⟨1, 2, 2, 1, 40, 50, 50, 200⟩

/-- Instructor 0 teaches one 1-participant lesson on each of the two days. -/
def gC2 : Grid := fun x =>
  if x = (0, 0, 0) then some ⟨0, 3, [1]⟩
  else if x = (0, 1, 0) then some ⟨0, 4, [2]⟩ else none

/-- The single instructor of the `cfgC2` scenario. -/
def instructorsC2 : List Instructor := [⟨0, [3, 4]⟩]

/-- The grid `improve_results` produces from `gC2`: both lessons consolidated
onto day 1. -/
def gC2' : Grid := relocate gC2 (0, 0, 0) (0, 1, 1)

/-! ## Theorems -/

theorem mem_coordsList {cfg : Config} {x : Coord} :
    x ∈ coordsList cfg ↔ x.1 < cfg.class_num ∧ x.2.1 < cfg.day_num ∧ x.2.2 < cfg.time_slot_num := by
  obtain ⟨c, d, ts⟩ := x
  simp [coordsList, List.mem_product, List.mem_range]

theorem mem_coordsFinset {cfg : Config} {x : Coord} :
    x ∈ coordsFinset cfg ↔ x.1 < cfg.class_num ∧ x.2.1 < cfg.day_num ∧ x.2.2 < cfg.time_slot_num := by
  obtain ⟨c, d, ts⟩ := x
  simp [coordsFinset, Finset.mem_product, Finset.mem_range]

theorem mem_coordsList_iff_mem_coordsFinset {cfg : Config} {x : Coord} :
    x ∈ coordsList cfg ↔ x ∈ coordsFinset cfg := by
  rw [mem_coordsList, mem_coordsFinset]

theorem coordsList_nodup (cfg : Config) : (coordsList cfg).Nodup :=
  (List.nodup_range _).product ((List.nodup_range _).product (List.nodup_range _))

/-- Closed form of the `get_cost` accumulation loop over any cell list whose
lessons are in bounds. -/
theorem costFold_char (cfg : Config) (g : Grid) :
    ∀ (l : List Coord) (acc : CostAcc),
      (∀ x ∈ l, ∀ L, g x = some L → L.instructorId < cfg.nInstructors) →
      List.foldlM (costStep cfg g) acc l = some
        { participants_sum := acc.participants_sum +
            ((l.map fun x => (g x).elim 0 fun L => L.participants.length).sum)
          instructors_hours := fun i d => acc.instructors_hours i d +
            ((l.filter fun x => x.2.1 = d ∧ ∃ L, g x = some L ∧ L.instructorId = i).length)
          class_per_day := fun c d =>
            if 0 < ((l.filter fun x => x.1 = c ∧ x.2.1 = d ∧ g x ≠ none).length) then 1
            else acc.class_per_day c d } := by
  intro l
  induction l with
  | nil =>
    intro acc _
    simp [List.foldlM]
  | cons x l ih =>
    intro acc hb
    rw [List.foldlM_cons]
    rcases hgx : g x with _ | L
    · have hstep : costStep cfg g acc x = some acc := by
        simp [costStep, hgx]
      rw [hstep]
      show List.foldlM (costStep cfg g) acc l = _
      rw [ih acc (fun y hy => hb y (List.mem_cons_of_mem _ hy))]
      congr 1
      congr 1
      · simp [hgx]
      · funext i d
        have : ¬ (x.2.1 = d ∧ ∃ L, g x = some L ∧ L.instructorId = i) := by
          rintro ⟨_, L, hL, _⟩
          rw [hgx] at hL; exact Option.noConfusion hL
        simp [List.filter_cons, this]
      · funext c d
        have : ¬ (x.1 = c ∧ x.2.1 = d ∧ g x ≠ none) := by
          rintro ⟨_, _, hne⟩
          exact hne hgx
        simp [List.filter_cons, this]
    · have hid : L.instructorId < cfg.nInstructors := hb x (List.mem_cons_self _ _) L hgx
      have hstep : costStep cfg g acc x = some
          { participants_sum := acc.participants_sum + L.participants.length
            instructors_hours := fun i d =>
              if i = L.instructorId ∧ d = x.2.1 then acc.instructors_hours i d + 1
              else acc.instructors_hours i d
            class_per_day := fun c d =>
              if c = x.1 ∧ d = x.2.1 then 1 else acc.class_per_day c d } := by
        simp [costStep, hgx, hid]
      rw [hstep]
      show List.foldlM (costStep cfg g) _ l = _
      rw [ih _ (fun y hy => hb y (List.mem_cons_of_mem _ hy))]
      congr 1
      congr 1
      · simp [hgx, Nat.add_assoc]
      · funext i d
        dsimp only
        by_cases hx : x.2.1 = d ∧ ∃ L', g x = some L' ∧ L'.instructorId = i
        · have hcond : i = L.instructorId ∧ d = x.2.1 := by
            obtain ⟨hd, L', hL', hi⟩ := hx
            rw [hgx] at hL'
            cases hL'
            exact ⟨hi.symm, hd.symm⟩
          rw [List.filter_cons_of_pos (by simpa using hx), if_pos hcond]
          simp [Nat.add_comm, Nat.add_assoc, Nat.add_left_comm]
        · have hcond : ¬ (i = L.instructorId ∧ d = x.2.1) := by
            rintro ⟨hi, hd⟩
            exact hx ⟨hd.symm, L, hgx, hi.symm⟩
          rw [List.filter_cons_of_neg (by simpa using hx), if_neg hcond]
      · funext c d
        dsimp only
        by_cases hx : x.1 = c ∧ x.2.1 = d ∧ g x ≠ none
        · have hcond : c = x.1 ∧ d = x.2.1 := ⟨hx.1.symm, hx.2.1.symm⟩
          rw [List.filter_cons_of_pos (by simpa using hx), if_pos hcond]
          simp
        · have hxne : g x ≠ none := by rw [hgx]; exact fun h => Option.noConfusion h
          have hcond : ¬ (c = x.1 ∧ d = x.2.1) := by
            rintro ⟨hc, hd⟩
            exact hx ⟨hc.symm, hd.symm, hxne⟩
          rw [List.filter_cons_of_neg (by simpa using hx), if_neg hcond]

/-- `get_cost` on an in-bounds grid computes the revenue formula stated in the
spec, with each term defined directly from the grid contents. -/
theorem get_cost_eq (cfg : Config) (g : Grid) (h : InBounds cfg g) :
    get_cost cfg g = some
      (cfg.ticket_cost * (totalParticipants cfg g : Int) -
        cfg.hour_pay * (hoursSum cfg g : Int) -
        cfg.pay_for_presence * (presencePairs cfg g : Int) -
        cfg.class_renting_cost * (classroomDays cfg g : Int)) := by
  unfold get_cost
  rw [costFold_char cfg g (coordsList cfg) _ h]
  simp only [Option.map_some']
  congr 1
  have hparts : (0 : Nat) +
      ((coordsList cfg).map fun x => (g x).elim 0 fun L => L.participants.length).sum =
      totalParticipants cfg g := Nat.zero_add _
  have hhours : (∑ i ∈ Finset.range cfg.nInstructors, ∑ d ∈ Finset.range cfg.day_num,
      ((0 : Nat) + ((coordsList cfg).filter fun x =>
        x.2.1 = d ∧ ∃ L, g x = some L ∧ L.instructorId = i).length)) = hoursSum cfg g := by
    unfold hoursSum lessonsOf
    refine Finset.sum_congr rfl fun i _ => Finset.sum_congr rfl fun d _ => Nat.zero_add _
  have hpres : ((Finset.range cfg.nInstructors ×ˢ Finset.range cfg.day_num).filter
      (fun p => 0 < (0 : Nat) + ((coordsList cfg).filter fun x =>
        x.2.1 = p.2 ∧ ∃ L, g x = some L ∧ L.instructorId = p.1).length)).card =
      presencePairs cfg g := by
    unfold presencePairs lessonsOf
    congr 1
    refine Finset.filter_congr fun p _ => ?_
    rw [Nat.zero_add]
  have hclass : (∑ c ∈ Finset.range cfg.class_num, ∑ d ∈ Finset.range cfg.day_num,
      (if 0 < ((coordsList cfg).filter fun x => x.1 = c ∧ x.2.1 = d ∧ g x ≠ none).length
        then 1 else 0)) = classroomDays cfg g := by
    unfold classroomDays cellsUsed
    rw [← Finset.sum_product']
    rw [Finset.card_filter]
  rw [hparts, hhours, hpres, hclass]

/-- C1: for every grid whose lessons name valid instructor ids, `get_cost`
returns exactly `ticket_cost`·(total participants) − `hour_pay`·(lessons
summed per (instructor, day)) − `pay_for_presence`·#{(instructor, day) pairs
with ≥ 1 lesson} − `class_renting_cost`·#{(classroom, day) pairs with ≥ 1
lesson}.  The embedding is a pure function of `(cfg, g)`, so two calls on an
unmodified grid agree and the grid is not altered. -/
theorem C1_get_cost_revenue_formula (cfg : Config) (g : Grid) (h : InBounds cfg g) :
    get_cost cfg g = some
      (cfg.ticket_cost * (totalParticipants cfg g : Int) -
        cfg.hour_pay * (hoursSum cfg g : Int) -
        cfg.pay_for_presence * (presencePairs cfg g : Int) -
        cfg.class_renting_cost * (classroomDays cfg g : Int)) :=
  get_cost_eq cfg g h

theorem C1_witness :
    InBounds cfgW1 gW1 ∧ get_cost cfgW1 gW1 = some
      (cfgW1.ticket_cost * (totalParticipants cfgW1 gW1 : Int) -
        cfgW1.hour_pay * (hoursSum cfgW1 gW1 : Int) -
        cfgW1.pay_for_presence * (presencePairs cfgW1 gW1 : Int) -
        cfgW1.class_renting_cost * (classroomDays cfgW1 gW1 : Int)) :=
  ⟨by decide, C1_get_cost_revenue_formula cfgW1 gW1 (by decide)⟩

/-- If any cell of the list holds a lesson with an out-of-range instructor
id, the `get_cost` fold raises (returns `none`). -/
theorem costFold_none (cfg : Config) (g : Grid) :
    ∀ (l : List Coord) (acc : CostAcc) (x : Coord), x ∈ l →
      ∀ L, g x = some L → cfg.nInstructors ≤ L.instructorId →
      List.foldlM (costStep cfg g) acc l = none := by
  intro l
  induction l with
  | nil => intro acc x hx; cases hx
  | cons y l ih =>
    intro acc x hx L hL hge
    rw [List.foldlM_cons]
    rcases List.mem_cons.mp hx with rfl | hmem
    · have hstep : costStep cfg g acc x = none := by
        simp [costStep, hL, Nat.not_lt.mpr hge]
      rw [hstep]
      rfl
    · rcases hstep : costStep cfg g acc y with _ | acc'
      · rfl
      · show List.foldlM (costStep cfg g) acc' l = none
        exact ih acc' x hmem L hL hge

/-- C9: `get_cost` is only well-defined when every lesson's instructor id is a
valid index into the loaded instructor array: a grid containing an in-range
cell whose lesson's `instructor.id` is `≥` the number of instructors makes
the `instructors_hours[instructor.id, d]` lookup fail, and `get_cost` raises
instead of returning a score. -/
theorem C9_get_cost_requires_valid_instructor_ids (cfg : Config) (g : Grid)
    (x : Coord) (hx : x ∈ coordsList cfg) (L : Lesson) (hL : g x = some L)
    (hbad : cfg.nInstructors ≤ L.instructorId) :
    get_cost cfg g = none := by
  unfold get_cost
  rw [costFold_none cfg g (coordsList cfg) _ x hx L hL hbad]
  rfl

theorem C9_witness :
    (0, 0, 0) ∈ coordsList cfgW1 ∧ gW1bad (0, 0, 0) = some ⟨5, 1, [7]⟩ ∧
      cfgW1.nInstructors ≤ (5 : Nat) ∧ get_cost cfgW1 gW1bad = none :=
  ⟨by decide, by decide, by decide,
    C9_get_cost_requires_valid_instructor_ids cfgW1 gW1bad (0, 0, 0) (by decide)
      ⟨5, 1, [7]⟩ (by decide) (by decide)⟩


theorem countP_congr_of_agree {α : Type} {p q : α → Bool} :
    ∀ {r : List α}, (∀ x ∈ r, p x = q x) → List.countP p r = List.countP q r := by
  intro r
  induction r with
  | nil => intro _; rfl
  | cons y r ihr =>
    intro h
    rw [List.countP_cons, List.countP_cons, ihr fun x hx => h x (List.mem_cons_of_mem _ hx),
      h y (List.mem_cons_self y r)]

theorem relocate_apply_src (g : Grid) (src tgt : Coord) : relocate g src tgt src = none := by
  unfold relocate
  exact Function.update_same _ _ _

theorem relocate_apply_tgt (g : Grid) {src tgt : Coord} (hne : src ≠ tgt) :
    relocate g src tgt tgt = g src := by
  unfold relocate
  rw [Function.update_noteq (fun h => hne h.symm), Function.update_same]

theorem relocate_apply_other (g : Grid) {src tgt x : Coord} (hs : x ≠ src) (ht : x ≠ tgt) :
    relocate g src tgt x = g x := by
  unfold relocate
  rw [Function.update_noteq hs, Function.update_noteq ht]

theorem getD_mem_of_ne_nil {l : List Coord} (h : l ≠ []) (n : Nat) (d : Coord) :
    l.getD (n % l.length) d ∈ l := by
  have hlen : 0 < l.length := List.length_pos.mpr h
  have hlt : n % l.length < l.length := Nat.mod_lt _ hlen
  rw [List.getD_eq_getElem l d hlt]
  exact List.getElem_mem hlt

theorem random_not_none_id_spec {cfg : Config} {g : Grid}
    (h : not_none_id_list cfg g ≠ []) (po : Nat) :
    random_not_none_id cfg g po ∈ coordsList cfg ∧ g (random_not_none_id cfg g po) ≠ none := by
  have hmem : random_not_none_id cfg g po ∈ not_none_id_list cfg g := by
    unfold random_not_none_id
    exact getD_mem_of_ne_nil h po (0, 0, 0)
  rw [not_none_id_list, List.mem_filter] at hmem
  exact ⟨hmem.1, of_decide_eq_true hmem.2⟩

theorem random_none_id_spec {cfg : Config} {g : Grid}
    (h : none_id_list cfg g ≠ []) (pe : Nat) :
    random_none_id cfg g pe ∈ coordsList cfg ∧ g (random_none_id cfg g pe) = none := by
  have hmem : random_none_id cfg g pe ∈ none_id_list cfg g := by
    unfold random_none_id
    exact getD_mem_of_ne_nil h pe (0, 0, 0)
  rw [none_id_list, List.mem_filter] at hmem
  exact ⟨hmem.1, of_decide_eq_true hmem.2⟩

/-- In a duplicate-free list, a member can be moved to the front. -/
theorem perm_cons_of_mem_nodup {α : Type} {l : List α} {a : α}
    (h : a ∈ l) (hn : l.Nodup) : ∃ rest, l.Perm (a :: rest) ∧ a ∉ rest := by
  induction l with
  | nil => cases h
  | cons x l ih =>
    rcases List.mem_cons.mp h with rfl | h'
    · exact ⟨l, List.Perm.refl _, (List.nodup_cons.mp hn).1⟩
    · obtain ⟨rest, hp, hna⟩ := ih h' (List.nodup_cons.mp hn).2
      refine ⟨x :: rest, (hp.cons x).trans (List.Perm.swap a x rest), ?_⟩
      intro hmem
      rcases List.mem_cons.mp hmem with rfl | hmem'
      · exact (List.nodup_cons.mp hn).1 h'
      · exact hna hmem'

/-- In a duplicate-free list, two distinct members can be moved to the front. -/
theorem perm_pair_of_mem_nodup {α : Type} {l : List α} {a b : α}
    (ha : a ∈ l) (hb : b ∈ l) (hne : a ≠ b) (hn : l.Nodup) :
    ∃ rest, l.Perm (a :: b :: rest) ∧ a ∉ rest ∧ b ∉ rest := by
  obtain ⟨r₁, hp₁, hna₁⟩ := perm_cons_of_mem_nodup ha hn
  have hb₁ : b ∈ r₁ := by
    rcases List.mem_cons.mp (hp₁.subset hb) with rfl | hmem
    · exact absurd rfl hne.symm
    · exact hmem
  have hn₁ : r₁.Nodup := (List.nodup_cons.mp (hp₁.nodup hn)).2
  obtain ⟨r₂, hp₂, hnb₂⟩ := perm_cons_of_mem_nodup hb₁ hn₁
  refine ⟨r₂, hp₁.trans (hp₂.cons a), ?_, hnb₂⟩
  intro hmem
  exact hna₁ (hp₂.symm.subset (List.mem_cons_of_mem _ hmem))

theorem coordsList_perm_pair (cfg : Config) {src tgt : Coord}
    (hs : src ∈ coordsList cfg) (ht : tgt ∈ coordsList cfg) (hne : src ≠ tgt) :
    ∃ rest : List Coord, (coordsList cfg).Perm (src :: tgt :: rest) ∧
      src ∉ rest ∧ tgt ∉ rest :=
  perm_pair_of_mem_nodup hs ht hne (coordsList_nodup cfg)

/-- Moving a lesson from an occupied cell to an empty cell keeps the number of
occupied cells. -/
theorem occupiedCount_relocate (cfg : Config) (g : Grid) {src tgt : Coord}
    (hs : src ∈ coordsList cfg) (ht : tgt ∈ coordsList cfg)
    (hsrc : g src ≠ none) (htgt : g tgt = none) :
    occupiedCount cfg (relocate g src tgt) = occupiedCount cfg g := by
  have hne : src ≠ tgt := by
    intro h
    rw [h] at hsrc
    exact hsrc htgt
  obtain ⟨rest, hperm, hsr, htr⟩ := coordsList_perm_pair cfg hs ht hne
  unfold occupiedCount
  rw [← List.countP_eq_length_filter, ← List.countP_eq_length_filter,
    hperm.countP_eq, hperm.countP_eq, List.countP_cons, List.countP_cons,
    List.countP_cons, List.countP_cons]
  have e5 : List.countP (fun x => decide (relocate g src tgt x ≠ none)) rest =
      List.countP (fun x => decide (g x ≠ none)) rest := by
    refine countP_congr_of_agree fun x hx => ?_
    have hxs : x ≠ src := fun h => hsr (h ▸ hx)
    have hxt : x ≠ tgt := fun h => htr (h ▸ hx)
    rw [relocate_apply_other g hxs hxt]
  rw [e5]
  simp only [relocate_apply_src g src tgt, relocate_apply_tgt g hne]
  simp [hsrc, htgt]

/-- Moving any cell's contents into an empty cell preserves the multiset of
lessons present in the grid. -/
theorem lessonsMultiset_relocate (cfg : Config) (g : Grid) {src tgt : Coord}
    (hs : src ∈ coordsList cfg) (ht : tgt ∈ coordsList cfg)
    (hne : src ≠ tgt) (htgt : g tgt = none) :
    lessonsMultiset cfg (relocate g src tgt) = lessonsMultiset cfg g := by
  obtain ⟨rest, hperm, hsr, htr⟩ := coordsList_perm_pair cfg hs ht hne
  unfold lessonsMultiset
  rw [Multiset.coe_eq_coe.mpr (hperm.filterMap _), Multiset.coe_eq_coe.mpr (hperm.filterMap _)]
  have hcongr : rest.filterMap (relocate g src tgt) = rest.filterMap g := by
    refine List.filterMap_congr fun x hx => ?_
    have hxs : x ≠ src := fun h => hsr (h ▸ hx)
    have hxt : x ≠ tgt := fun h => htr (h ▸ hx)
    exact relocate_apply_other g hxs hxt
  rw [List.filterMap_cons, List.filterMap_cons, List.filterMap_cons, List.filterMap_cons,
    relocate_apply_src g src tgt, relocate_apply_tgt g hne, htgt, hcongr]

/-- C4: on a grid with at least one occupied and one empty cell,
`get_neighbor` empties the chosen occupied cell, writes the moved lesson into
the chosen empty cell, leaves every other cell unchanged, and keeps the
occupied-cell count (no lesson is created or deleted). -/
theorem C4_get_neighbor_pure_relocation (cfg : Config) (g g' : Grid) (po pe : Nat)
    (h : get_neighbor cfg g po pe = some g') :
    g' (random_not_none_id cfg g po) = none ∧
    g' (random_none_id cfg g pe) = g (random_not_none_id cfg g po) ∧
    (∀ x : Coord, x ≠ random_not_none_id cfg g po → x ≠ random_none_id cfg g pe →
      g' x = g x) ∧
    occupiedCount cfg g' = occupiedCount cfg g := by
  unfold get_neighbor at h
  by_cases hcond : (not_none_id_list cfg g).isEmpty ∨ (none_id_list cfg g).isEmpty
  · rw [if_pos hcond] at h
    exact absurd h (by simp)
  · rw [if_neg hcond] at h
    have hocc : not_none_id_list cfg g ≠ [] := by
      intro he
      exact hcond (Or.inl (by simp [he]))
    have hemp : none_id_list cfg g ≠ [] := by
      intro he
      exact hcond (Or.inr (by simp [he]))
    obtain ⟨hs_mem, hs_ne⟩ := random_not_none_id_spec hocc po
    obtain ⟨ht_mem, ht_eq⟩ := random_none_id_spec hemp pe
    have hne : random_not_none_id cfg g po ≠ random_none_id cfg g pe := by
      intro he
      rw [he] at hs_ne
      exact hs_ne ht_eq
    have hg' : g' = relocate g (random_not_none_id cfg g po) (random_none_id cfg g pe) :=
      (Option.some.inj h).symm
    subst hg'
    refine ⟨relocate_apply_src g _ _, relocate_apply_tgt g hne, ?_, ?_⟩
    · intro x hxs hxt
      exact relocate_apply_other g hxs hxt
    · exact occupiedCount_relocate cfg g hs_mem ht_mem hs_ne ht_eq

theorem C4_witness :
    gW1n (0, 0, 0) = none ∧ gW1n (0, 0, 1) = gW1 (0, 0, 0) ∧
      occupiedCount cfgW1 gW1n = occupiedCount cfgW1 gW1 :=
  ⟨(C4_get_neighbor_pure_relocation cfgW1 gW1 gW1n 0 0 rfl).1,
    (C4_get_neighbor_pure_relocation cfgW1 gW1 gW1n 0 0 rfl).2.1,
    (C4_get_neighbor_pure_relocation cfgW1 gW1 gW1n 0 0 rfl).2.2.2⟩

/-- Core facts about one inner iteration: `best_cost` never decreases, the
invariant "`best_cost` is the cost of `best_solution`" is preserved, and the
iteration counter advances by one. -/
theorem innerStep_inv (cfg : Config) (oracle : Nat → SAChoice) {s s' : SAState}
    (h : innerStep cfg oracle s = some s') :
    s.best_cost ≤ s'.best_cost ∧
      (get_cost cfg s.best_solution = some s.best_cost →
        get_cost cfg s'.best_solution = some s'.best_cost) ∧
      s'.total_counter = s.total_counter + 1 := by
  simp only [innerStep] at h
  rcases hnb : get_neighbor cfg s.current_solution (oracle (s.total_counter + 1)).srcPick
      (oracle (s.total_counter + 1)).tgtPick with _ | nb
  · rw [hnb] at h
    exact Option.noConfusion h
  · rw [hnb] at h
    dsimp only at h
    rcases hnc : get_cost cfg nb with _ | nc
    · rw [hnc] at h
      exact Option.noConfusion h
    · rw [hnc] at h
      dsimp only at h
      by_cases h1 : (0 : Int) ≤ nc - s.current_cost
      · rw [if_pos h1] at h
        by_cases h2 : s.best_cost < nc
        · rw [if_pos h2] at h
          cases Option.some.inj h
          exact ⟨le_of_lt h2, fun _ => hnc, rfl⟩
        · rw [if_neg h2] at h
          cases Option.some.inj h
          exact ⟨le_refl _, fun hi => hi, rfl⟩
      · rw [if_neg h1] at h
        by_cases h3 : (oracle (s.total_counter + 1)).acceptWorse = true
        · rw [if_pos h3] at h
          cases Option.some.inj h
          exact ⟨le_refl _, fun hi => hi, rfl⟩
        · rw [if_neg h3] at h
          cases Option.some.inj h
          exact ⟨le_refl _, fun hi => hi, rfl⟩

theorem innerLoop_inv (cfg : Config) (oracle : Nat → SAChoice) :
    ∀ (n : Nat) {s s' : SAState}, innerLoop cfg oracle n s = some s' →
      s.best_cost ≤ s'.best_cost ∧
        (get_cost cfg s.best_solution = some s.best_cost →
          get_cost cfg s'.best_solution = some s'.best_cost) ∧
        s'.total_counter = s.total_counter + n := by
  intro n
  induction n with
  | zero =>
    intro s s' h
    cases Option.some.inj h
    exact ⟨le_refl _, fun hi => hi, rfl⟩
  | succ n ih =>
    intro s s' h
    unfold innerLoop at h
    rcases hstep : innerStep cfg oracle s with _ | s₁
    · rw [hstep] at h
      exact Option.noConfusion h
    · rw [hstep] at h
      obtain ⟨hle₁, hinv₁, ht₁⟩ := innerStep_inv cfg oracle hstep
      obtain ⟨hle₂, hinv₂, ht₂⟩ := ih h
      refine ⟨le_trans hle₁ hle₂, fun hi => hinv₂ (hinv₁ hi), ?_⟩
      rw [ht₂, ht₁]
      omega

theorem epochStep_inv (cfg : Config) (prm : SAParams) (oracle : Nat → SAChoice)
    {s s' : SAState} (h : epochStep cfg prm oracle s = some s') :
    s.best_cost ≤ s'.best_cost ∧
      (get_cost cfg s.best_solution = some s.best_cost →
        get_cost cfg s'.best_solution = some s'.best_cost) := by
  unfold epochStep at h
  rcases hil : innerLoop cfg oracle prm.n_iter_one_temp s with _ | s₁
  · rw [hil] at h
    exact Option.noConfusion h
  · rw [hil] at h
    obtain ⟨hle, hinv, _⟩ := innerLoop_inv cfg oracle _ hil
    simp only [Option.map_some'] at h
    cases Option.some.inj h
    constructor
    · split <;> exact hle
    · intro hi
      split <;> exact hinv hi

theorem saLoop_inv (cfg : Config) (prm : SAParams) (oracle : Nat → SAChoice) :
    ∀ (fuel : Nat) {s s' : SAState}, saLoop cfg prm oracle fuel s = some s' →
      s.best_cost ≤ s'.best_cost ∧
        (get_cost cfg s.best_solution = some s.best_cost →
          get_cost cfg s'.best_solution = some s'.best_cost) := by
  intro fuel
  induction fuel with
  | zero =>
    intro s s' h
    unfold saLoop at h
    by_cases hc : prm.min_temp < s.current_temp ∧ s.counter < prm.n_iter_without_improvement
    · rw [if_pos hc] at h
      exact Option.noConfusion h
    · rw [if_neg hc] at h
      cases Option.some.inj h
      exact ⟨le_refl _, fun hi => hi⟩
  | succ fuel ih =>
    intro s s' h
    unfold saLoop at h
    by_cases hc : prm.min_temp < s.current_temp ∧ s.counter < prm.n_iter_without_improvement
    · rw [if_pos hc] at h
      rcases hep : epochStep cfg prm oracle s with _ | s₁
      · rw [hep] at h
        exact Option.noConfusion h
      · rw [hep] at h
        obtain ⟨hle₁, hinv₁⟩ := epochStep_inv cfg prm oracle hep
        obtain ⟨hle₂, hinv₂⟩ := ih h
        exact ⟨le_trans hle₁ hle₂, fun hi => hinv₂ (hinv₁ hi)⟩
    · rw [if_neg hc] at h
      cases Option.some.inj h
      exact ⟨le_refl _, fun hi => hi⟩

/-- C3: `best_cost` never decreases from one inner iteration to the next, and
the `best_cost` a run returns is at least the cost of the grid the run
started from. -/
theorem C3_best_cost_monotone (cfg : Config) (prm : SAParams) (oracle : Nat → SAChoice)
    (fuel : Nat) (g₀ : Grid) :
    (∀ s s' : SAState, innerStep cfg oracle s = some s' → s.best_cost ≤ s'.best_cost) ∧
    (∀ (res : SAResult) (c₀ : Int), simulated_annealing cfg prm oracle fuel g₀ = some res →
      get_cost cfg g₀ = some c₀ → c₀ ≤ res.ret.1) := by
  constructor
  · intro s s' h
    exact (innerStep_inv cfg oracle h).1
  · intro res c₀ h hc₀
    unfold simulated_annealing at h
    rw [hc₀, Option.some_bind] at h
    rcases hsf : saLoop cfg prm oracle fuel (initState prm g₀ c₀) with _ | sf
    · rw [hsf] at h
      exact Option.noConfusion h
    · rw [hsf, Option.map_some'] at h
      cases Option.some.inj h
      exact (saLoop_inv cfg prm oracle fuel hsf).1

theorem C3_witness :
    sW7.best_cost ≤ sW7'.best_cost ∧ (-480 : Int) ≤ resW.ret.1 :=
  ⟨(C3_best_cost_monotone cfgW1 prmW orW 0 gW1).1 sW7 sW7' rfl,
    (C3_best_cost_monotone cfgW1 prmW orW 0 gW1).2 resW (-480) rfl rfl⟩

/-- C10: whenever `simulated_annealing` returns, the grid installed into
`self.schedule` is the best-found grid — snapshotted by `copy.deepcopy` at
every improvement, so later in-place mutation of the working grid cannot
touch it — and the returned `best_cost` is exactly `get_cost` of that
grid. -/
theorem C10_returned_schedule_is_best (cfg : Config) (prm : SAParams)
    (oracle : Nat → SAChoice) (fuel : Nat) (g₀ : Grid) (res : SAResult)
    (h : simulated_annealing cfg prm oracle fuel g₀ = some res) :
    get_cost cfg res.schedule = some res.ret.1 := by
  unfold simulated_annealing at h
  rcases hc₀ : get_cost cfg g₀ with _ | c₀
  · rw [hc₀] at h
    exact Option.noConfusion h
  · rw [hc₀, Option.some_bind] at h
    rcases hsf : saLoop cfg prm oracle fuel (initState prm g₀ c₀) with _ | sf
    · rw [hsf] at h
      exact Option.noConfusion h
    · rw [hsf, Option.map_some'] at h
      cases Option.some.inj h
      exact (saLoop_inv cfg prm oracle fuel hsf).2 hc₀

theorem C10_witness : get_cost cfgW1 resW.schedule = some resW.ret.1 :=
  C10_returned_schedule_is_best cfgW1 prmW orW 0 gW1 resW rfl

/-- C7: `get_neighbor` mutates the working grid in place and returns that very
same array, so on a rejected proposal (`delta < 0` and the Metropolis draw
fails) the inner iteration leaves the working grid in the post-move state —
`current_solution` becomes the mutated grid `nb`, nothing is rolled back —
while `current_cost` keeps its pre-proposal value; only the accept branches
update `current_cost`. -/
theorem C7_rejected_proposal_keeps_mutation (cfg : Config) (oracle : Nat → SAChoice)
    (s : SAState) (nb : Grid) (nc : Int)
    (hnb : get_neighbor cfg s.current_solution (oracle (s.total_counter + 1)).srcPick
      (oracle (s.total_counter + 1)).tgtPick = some nb)
    (hnc : get_cost cfg nb = some nc)
    (hdelta : nc - s.current_cost < 0)
    (hrej : (oracle (s.total_counter + 1)).acceptWorse = false) :
    innerStep cfg oracle s =
      some { s with current_solution := nb, total_counter := s.total_counter + 1 } := by
  simp only [innerStep]
  rw [hnb]
  dsimp only
  rw [hnc]
  dsimp only
  rw [if_neg (not_le.mpr hdelta), if_neg (by rw [hrej]; exact Bool.false_ne_true)]

theorem C7_witness : innerStep cfgW1 orW sW7 = some sW7' :=
  C7_rejected_proposal_keeps_mutation cfgW1 orW sW7 gW1n (-480) rfl (by decide) (by decide) rfl

/-- C5 counterexample: a concrete run of the `src/main.py` optimizer returns
the pair `(best_cost, total_counter)` — there is no third component carrying
the per-iteration `current_cost` sequence. -/
theorem C5_counterexample :
    (simulated_annealing cfgW1 prmW orW 0 gW1).map SAResult.ret =
      some ((-480 : Int), (0 : Nat)) := rfl

/-- C5 (amended): `simulated_annealing` returns exactly two things — the best
cost found and the total number of inner iterations performed (the counter
advances once per inner iteration, `n_iter_one_temp` per epoch); the ordered
sequence of per-iteration `current_cost` values is not recorded or
returned. -/
theorem C5_amended_return_value (cfg : Config) (prm : SAParams) (oracle : Nat → SAChoice)
    (fuel : Nat) (g₀ : Grid) :
    (∀ (n : Nat) (s s' : SAState), innerLoop cfg oracle n s = some s' →
      s'.total_counter = s.total_counter + n) ∧
    (∀ (c₀ : Int) (sf : SAState), get_cost cfg g₀ = some c₀ →
      saLoop cfg prm oracle fuel (initState prm g₀ c₀) = some sf →
      simulated_annealing cfg prm oracle fuel g₀ =
        some ⟨sf.best_solution, (sf.best_cost, sf.total_counter)⟩) := by
  constructor
  · intro n s s' h
    exact (innerLoop_inv cfg oracle n h).2.2
  · intro c₀ sf hc₀ hsf
    unfold simulated_annealing
    rw [hc₀, Option.some_bind, hsf, Option.map_some']

theorem C5_witness :
    sW7'.total_counter = sW7.total_counter + 1 ∧
      simulated_annealing cfgW1 prmW orW 0 gW1 = some resW :=
  ⟨(C5_amended_return_value cfgW1 prmW orW 0 gW1).1 1 sW7 sW7' rfl,
    (C5_amended_return_value cfgW1 prmW orW 0 gW1).2 (-480) (initState prmW gW1 (-480))
      rfl rfl⟩

/-- C8: for every text typed into a numeric parameter field, if the text does
not parse as an integer then both `on_text` handlers set the parameter to 0
instead of rejecting the input; if it parses, they set it to the parsed
integer.  Other parameters are untouched. -/
theorem C8_on_text_zero_fallback (parameters : String → Int) (p t : String) :
    (int_of_string t = none → Optimize.on_text parameters p t p = 0 ∧
      ScheduleParameters.on_text parameters p t p = 0) ∧
    (∀ k : Int, int_of_string t = some k → Optimize.on_text parameters p t p = k ∧
      ScheduleParameters.on_text parameters p t p = k) ∧
    (∀ q : String, q ≠ p → Optimize.on_text parameters p t q = parameters q ∧
      ScheduleParameters.on_text parameters p t q = parameters q) := by
  refine ⟨?_, ?_, ?_⟩
  · intro h
    unfold Optimize.on_text ScheduleParameters.on_text
    rw [h]
    exact ⟨Function.update_same _ _ _, Function.update_same _ _ _⟩
  · intro k h
    unfold Optimize.on_text ScheduleParameters.on_text
    rw [h]
    exact ⟨Function.update_same _ _ _, Function.update_same _ _ _⟩
  · intro q hq
    unfold Optimize.on_text ScheduleParameters.on_text
    rcases int_of_string t with _ | k
    · exact ⟨Function.update_noteq hq _ _, Function.update_noteq hq _ _⟩
    · exact ⟨Function.update_noteq hq _ _, Function.update_noteq hq _ _⟩

theorem C8_witness :
    (Optimize.on_text paramsW "alpha" "abc" "alpha" = 0 ∧
      ScheduleParameters.on_text paramsW "alpha" "abc" "alpha" = 0) ∧
    (Optimize.on_text paramsW "initial_temp" " 100" "initial_temp" = 100 ∧
      ScheduleParameters.on_text paramsW "initial_temp" " 100" "initial_temp" = 100) :=
  ⟨(C8_on_text_zero_fallback paramsW "alpha" "abc").1 (by decide),
    (C8_on_text_zero_fallback paramsW "initial_temp" " 100").2.1 100 (by decide)⟩

/-- Line 219 always raises when reached: it removes an `int` from a list of
`Instructor` objects, and no `Instructor` ever compares equal to an `int`. -/
theorem list_remove_always_fails (l : List Instructor) (x : Nat) :
    list_remove l x = Except.error "ValueError: list.remove(x): x not in list" := by
  unfold list_remove
  rw [if_neg]
  intro h
  obtain ⟨ins, _, habs⟩ := List.any_eq_true.mp h
  exact Bool.false_ne_true habs

/-- C6: with two classrooms sharing one weekly position, placing the second
lesson group finds the first group's cell occupied at the shared linear
position; instead of excluding that instructor and placing the lesson with a
remaining qualified instructor, `generate_random_schedule` raises
`ValueError` from `all_instructors.remove(self.schedule[ts].instructor.id)`
(an `int` is removed from a list of `Instructor` objects, which never
compares equal). -/
theorem C6_conflict_exclusion_raises :
    generate_random_schedule 2 1 1 1 clientsW instructorsW true
      (fun _ _ => 0) (fun _ _ => 0) (fun _ => none) =
      Except.error "ValueError: list.remove(x): x not in list" := rfl

theorem foldl_erase_take : ∀ (l : List Nat) (n : Nat),
    (l.take n).foldl (fun acc ts => acc.erase ts) l = l.drop n := by
  intro l
  induction l with
  | nil => intro n; cases n <;> rfl
  | cons x xs ih =>
    intro n
    cases n with
    | zero => rfl
    | succ n =>
      rw [List.take_succ_cons, List.foldl_cons, List.erase_cons_head, List.drop_succ_cons]
      exact ih n

theorem getD_mem {α : Type} {l : List α} {n : Nat} (h : n < l.length) (d : α) :
    l.getD n d ∈ l := by
  rw [List.getD_eq_getElem l d h]
  exact List.getElem_mem h

theorem nodup_getD_ne {l : List Nat} (hl : l.Nodup) {a b : Nat} (ha : a < l.length)
    (hb : b < l.length) (hne : a ≠ b) (d : Nat) : l.getD a d ≠ l.getD b d := by
  rw [List.getD_eq_getElem l d ha, List.getD_eq_getElem l d hb]
  intro he
  exact hne (hl.getElem_inj_iff.mp he)

theorem list_set_getD_self {α : Type} (d : α) :
    ∀ (l : List α) (n : Nat), n < l.length → l.set n (l.getD n d) = l := by
  intro l
  induction l with
  | nil => intro n h; cases h
  | cons x xs ih =>
    intro n h
    cases n with
    | zero => rfl
    | succ n =>
      show x :: xs.set n (xs.getD n d) = x :: xs
      rw [ih n (Nat.lt_of_succ_lt_succ h)]

theorem zip_map_snd_take {α β : Type} :
    ∀ (l₁ : List α) (l₂ : List β), l₁.length ≤ l₂.length →
      (l₁.zip l₂).map Prod.snd = l₂.take l₁.length := by
  intro l₁
  induction l₁ with
  | nil => intro l₂ _; rfl
  | cons a l₁ ih =>
    intro l₂ h
    cases l₂ with
    | nil => exact absurd h (by simp)
    | cons b l₂ =>
      show b :: (l₁.zip l₂).map Prod.snd = b :: l₂.take l₁.length
      rw [ih l₂ (Nat.le_of_succ_le_succ h)]

theorem batchMove_other_day (c dI dJ : Nat) :
    ∀ (pairs : List (Nat × Nat)) (g : Grid) (x : Coord),
      x.2.1 ≠ dI → x.2.1 ≠ dJ → batchMove c dI dJ pairs g x = g x := by
  intro pairs
  induction pairs with
  | nil => intro g x _ _; rfl
  | cons p ps ih =>
    intro g x hxI hxJ
    show batchMove c dI dJ ps (relocate g (c, dI, p.1) (c, dJ, p.2)) x = g x
    rw [ih _ x hxI hxJ,
      relocate_apply_other g (fun h => hxI (by rw [h])) (fun h => hxJ (by rw [h]))]

theorem batchMove_dJ_not_target (c dI dJ : Nat) (hdne : dI ≠ dJ) :
    ∀ (pairs : List (Nat × Nat)) (g : Grid) (ts : Nat),
      (∀ q ∈ pairs, ts ≠ q.2) →
      batchMove c dI dJ pairs g (c, dJ, ts) = g (c, dJ, ts) := by
  intro pairs
  induction pairs with
  | nil => intro g ts _; rfl
  | cons p ps ih =>
    intro g ts hts
    show batchMove c dI dJ ps (relocate g (c, dI, p.1) (c, dJ, p.2)) (c, dJ, ts) = _
    rw [ih _ ts (fun q hq => hts q (List.mem_cons_of_mem _ hq)),
      relocate_apply_other g
        (fun h => hdne (congrArg (fun y : Coord => y.2.1) h).symm)
        (fun h => hts p (List.mem_cons_self _ _) (congrArg (fun y : Coord => y.2.2) h))]

theorem batchMove_dI_cases (c dI dJ : Nat) (hdne : dI ≠ dJ) :
    ∀ (pairs : List (Nat × Nat)) (g : Grid) (ts : Nat),
      batchMove c dI dJ pairs g (c, dI, ts) = g (c, dI, ts) ∨
        batchMove c dI dJ pairs g (c, dI, ts) = none := by
  intro pairs
  induction pairs with
  | nil => intro g ts; exact Or.inl rfl
  | cons p ps ih =>
    intro g ts
    show batchMove c dI dJ ps (relocate g (c, dI, p.1) (c, dJ, p.2)) (c, dI, ts) = _ ∨ _
    by_cases hp : ts = p.1
    · rcases ih (relocate g (c, dI, p.1) (c, dJ, p.2)) ts with h | h
      · refine Or.inr ?_
        show batchMove c dI dJ ps (relocate g (c, dI, p.1) (c, dJ, p.2)) (c, dI, ts) = none
        rw [h, hp, relocate_apply_src]
      · exact Or.inr h
    · have hcell : relocate g (c, dI, p.1) (c, dJ, p.2) (c, dI, ts) = g (c, dI, ts) :=
        relocate_apply_other g
          (fun h => hp (congrArg (fun y : Coord => y.2.2) h))
          (fun h => hdne (congrArg (fun y : Coord => y.2.1) h))
      rcases ih (relocate g (c, dI, p.1) (c, dJ, p.2)) ts with h | h
      · rw [h, hcell]
        exact Or.inl rfl
      · exact Or.inr h

theorem batchMove_none_persists (c dI dJ : Nat) (hdne : dI ≠ dJ)
    (pairs : List (Nat × Nat)) (g : Grid) (ts : Nat)
    (h : g (c, dI, ts) = none) : batchMove c dI dJ pairs g (c, dI, ts) = none := by
  rcases batchMove_dI_cases c dI dJ hdne pairs g ts with h' | h'
  · rw [h', h]
  · exact h'

theorem batchMove_src_none (c dI dJ : Nat) (hdne : dI ≠ dJ) :
    ∀ (pairs : List (Nat × Nat)) (g : Grid) (p : Nat × Nat), p ∈ pairs →
      batchMove c dI dJ pairs g (c, dI, p.1) = none := by
  intro pairs
  induction pairs with
  | nil => intro g p hp; cases hp
  | cons q ps ih =>
    intro g p hp
    show batchMove c dI dJ ps (relocate g (c, dI, q.1) (c, dJ, q.2)) (c, dI, p.1) = none
    rcases List.mem_cons.mp hp with rfl | hmem
    · exact batchMove_none_persists c dI dJ hdne ps _ p.1 (relocate_apply_src _ _ _)
    · exact ih _ p hmem

theorem batchMove_tgt_val (c dI dJ : Nat) (hdne : dI ≠ dJ) :
    ∀ (pairs : List (Nat × Nat)) (g : Grid),
      (pairs.map Prod.snd).Nodup → (pairs.map Prod.fst).Nodup →
      (∀ q ∈ pairs, g (c, dJ, q.2) = none) →
      ∀ p ∈ pairs, batchMove c dI dJ pairs g (c, dJ, p.2) = g (c, dI, p.1) := by
  intro pairs
  induction pairs with
  | nil => intro g _ _ _ p hp; cases hp
  | cons q ps ih =>
    intro g hsnd hfst hfree p hp
    have hqtgt : relocate g (c, dI, q.1) (c, dJ, q.2) (c, dJ, q.2) = g (c, dI, q.1) := by
      refine relocate_apply_tgt g ?_
      intro h
      exact hdne (congrArg (fun y : Coord => y.2.1) h)
    rw [List.map_cons] at hsnd hfst
    have hsnd' := List.nodup_cons.mp hsnd
    have hfst' := List.nodup_cons.mp hfst
    have hg₁free : ∀ r ∈ ps, relocate g (c, dI, q.1) (c, dJ, q.2) (c, dJ, r.2) = none := by
      intro r hr
      have hne1 : ((c, dJ, r.2) : Coord) ≠ (c, dI, q.1) := by
        intro h
        exact hdne (congrArg (fun y : Coord => y.2.1) h).symm
      have hne2 : ((c, dJ, r.2) : Coord) ≠ (c, dJ, q.2) := by
        intro h
        have he : r.2 = q.2 := congrArg (fun y : Coord => y.2.2) h
        refine hsnd'.1 ?_
        rw [← he]
        exact List.mem_map_of_mem Prod.snd hr
      rw [relocate_apply_other g hne1 hne2]
      exact hfree r (List.mem_cons_of_mem _ hr)
    show batchMove c dI dJ ps (relocate g (c, dI, q.1) (c, dJ, q.2)) (c, dJ, p.2) = _
    rcases List.mem_cons.mp hp with rfl | hmem
    · have hnot : ∀ r ∈ ps, p.2 ≠ r.2 := by
        intro r hr he
        refine hsnd'.1 ?_
        rw [he]
        exact List.mem_map_of_mem Prod.snd hr
      rw [batchMove_dJ_not_target c dI dJ hdne ps _ p.2 hnot, hqtgt]
    · have hsrc_keep : relocate g (c, dI, q.1) (c, dJ, q.2) (c, dI, p.1) = g (c, dI, p.1) := by
        have hne1 : ((c, dI, p.1) : Coord) ≠ (c, dI, q.1) := by
          intro h
          have he : p.1 = q.1 := congrArg (fun y : Coord => y.2.2) h
          refine hfst'.1 ?_
          rw [← he]
          exact List.mem_map_of_mem Prod.fst hmem
        have hne2 : ((c, dI, p.1) : Coord) ≠ (c, dJ, q.2) := by
          intro h
          exact hdne (congrArg (fun y : Coord => y.2.1) h)
        exact relocate_apply_other g hne1 hne2
      rw [ih _ hsnd'.2 hfst'.2 hg₁free p hmem, hsrc_keep]

theorem batchMove_multiset (cfg : Config) (c dI dJ : Nat) (hc : c < cfg.class_num)
    (hdI : dI < cfg.day_num) (hdJ : dJ < cfg.day_num) (hdne : dI ≠ dJ) :
    ∀ (pairs : List (Nat × Nat)) (g : Grid),
      (pairs.map Prod.snd).Nodup →
      (∀ q ∈ pairs, g (c, dJ, q.2) = none) →
      (∀ q ∈ pairs, q.1 < cfg.time_slot_num ∧ q.2 < cfg.time_slot_num) →
      lessonsMultiset cfg (batchMove c dI dJ pairs g) = lessonsMultiset cfg g := by
  intro pairs
  induction pairs with
  | nil => intro g _ _ _; rfl
  | cons q ps ih =>
    intro g hsnd hfree hts
    rw [List.map_cons] at hsnd
    have hsnd' := List.nodup_cons.mp hsnd
    have hg₁free : ∀ r ∈ ps, relocate g (c, dI, q.1) (c, dJ, q.2) (c, dJ, r.2) = none := by
      intro r hr
      have hne1 : ((c, dJ, r.2) : Coord) ≠ (c, dI, q.1) := by
        intro h
        exact hdne (congrArg (fun y : Coord => y.2.1) h).symm
      have hne2 : ((c, dJ, r.2) : Coord) ≠ (c, dJ, q.2) := by
        intro h
        have he : r.2 = q.2 := congrArg (fun y : Coord => y.2.2) h
        refine hsnd'.1 ?_
        rw [← he]
        exact List.mem_map_of_mem Prod.snd hr
      rw [relocate_apply_other g hne1 hne2]
      exact hfree r (List.mem_cons_of_mem _ hr)
    show lessonsMultiset cfg (batchMove c dI dJ ps (relocate g (c, dI, q.1) (c, dJ, q.2))) = _
    rw [ih _ hsnd'.2 hg₁free (fun r hr => hts r (List.mem_cons_of_mem _ hr))]
    exact lessonsMultiset_relocate cfg g
      (mem_coordsList.mpr ⟨hc, hdI, (hts q (List.mem_cons_self _ _)).1⟩)
      (mem_coordsList.mpr ⟨hc, hdJ, (hts q (List.mem_cons_self _ _)).2⟩)
      (fun h => hdne (congrArg (fun y : Coord => y.2.1) h))
      (hfree q (List.mem_cons_self _ _))

/-- One drain batch (either branch of the `j` loop): moving all of `recA`'s
occupied slots of its day into the first free slots of `recB`'s day
preserves the lesson multiset, and the updated records together with every
untouched record of a different day remain sound. -/
theorem drain_inv (cfg : Config) (g : Grid) (c : Nat) (recA recB : DayRec)
    (hc : c < cfg.class_num)
    (hA : RecOK cfg g c recA) (hB : RecOK cfg g c recB)
    (hne : recA.day ≠ recB.day)
    (hlen : recA.timeslots.length ≤ recB.free_ts.length) :
    lessonsMultiset cfg
        (batchMove c recA.day recB.day (recA.timeslots.zip recB.free_ts) g) =
      lessonsMultiset cfg g ∧
    RecOK cfg (batchMove c recA.day recB.day (recA.timeslots.zip recB.free_ts) g) c
      ⟨recA.day, [], recA.free_ts ++ recA.timeslots⟩ ∧
    RecOK cfg (batchMove c recA.day recB.day (recA.timeslots.zip recB.free_ts) g) c
      ⟨recB.day, recB.timeslots ++ recB.free_ts.take recA.timeslots.length,
        (recB.free_ts.take recA.timeslots.length).foldl (fun l ts => l.erase ts)
          recB.free_ts⟩ ∧
    (∀ r : DayRec, RecOK cfg g c r → r.day ≠ recA.day → r.day ≠ recB.day →
      RecOK cfg (batchMove c recA.day recB.day (recA.timeslots.zip recB.free_ts) g) c r) := by
  obtain ⟨hdA, hndA, hnfA, hoccA, hfreeA⟩ := hA
  obtain ⟨hdB, hndB, hnfB, hoccB, hfreeB⟩ := hB
  have hmemp : ∀ p ∈ recA.timeslots.zip recB.free_ts,
      p.1 ∈ recA.timeslots ∧ p.2 ∈ recB.free_ts := by
    intro p hp
    obtain ⟨a, b⟩ := p
    exact List.of_mem_zip hp
  have hsnd_eq : (recA.timeslots.zip recB.free_ts).map Prod.snd =
      recB.free_ts.take recA.timeslots.length := zip_map_snd_take _ _ hlen
  have hfst_eq : (recA.timeslots.zip recB.free_ts).map Prod.fst = recA.timeslots :=
    List.map_fst_zip _ _ hlen
  have hsnd_nodup : ((recA.timeslots.zip recB.free_ts).map Prod.snd).Nodup := by
    rw [hsnd_eq]
    exact hnfB.sublist (List.take_sublist _ _)
  have hfst_nodup : ((recA.timeslots.zip recB.free_ts).map Prod.fst).Nodup := by
    rw [hfst_eq]
    exact hndA
  have hfree_pairs : ∀ q ∈ recA.timeslots.zip recB.free_ts, g (c, recB.day, q.2) = none :=
    fun q hq => (hfreeB q.2 (hmemp q hq).2).2
  have hts_pairs : ∀ q ∈ recA.timeslots.zip recB.free_ts,
      q.1 < cfg.time_slot_num ∧ q.2 < cfg.time_slot_num :=
    fun q hq => ⟨(hoccA _ (hmemp q hq).1).1, (hfreeB _ (hmemp q hq).2).1⟩
  refine ⟨?_, ?_, ?_, ?_⟩
  · exact batchMove_multiset cfg c _ _ hc hdA hdB hne _ g hsnd_nodup hfree_pairs hts_pairs
  · refine ⟨hdA, List.nodup_nil, ?_, ?_, ?_⟩
    · exact hnfA.append hndA fun ts h1 h2 => (hoccA ts h2).2 (hfreeA ts h1).2
    · intro ts h
      cases h
    · intro ts hts
      rcases List.mem_append.mp hts with hf | ho
      · exact ⟨(hfreeA ts hf).1,
          batchMove_none_persists c _ _ hne _ g ts (hfreeA ts hf).2⟩
      · refine ⟨(hoccA ts ho).1, ?_⟩
        have : ts ∈ (recA.timeslots.zip recB.free_ts).map Prod.fst := by
          rw [hfst_eq]
          exact ho
        obtain ⟨p, hp, hpts⟩ := List.mem_map.mp this
        rw [← hpts]
        exact batchMove_src_none c _ _ hne _ g p hp
  · have hdrop : (recB.free_ts.take recA.timeslots.length).foldl
        (fun l ts => l.erase ts) recB.free_ts = recB.free_ts.drop recA.timeslots.length :=
      foldl_erase_take _ _
    refine ⟨hdB, ?_, ?_, ?_, ?_⟩
    · refine hndB.append (hnfB.sublist (List.take_sublist _ _)) ?_
      intro ts h1 h2
      exact (hoccB ts h1).2 (hfreeB ts (List.mem_of_mem_take h2)).2
    · rw [hdrop]
      exact hnfB.sublist (List.drop_sublist _ _)
    · intro ts hts
      rcases List.mem_append.mp hts with ho | htk
      · refine ⟨(hoccB ts ho).1, ?_⟩
        have hnt : ∀ q ∈ recA.timeslots.zip recB.free_ts, ts ≠ q.2 := by
          intro q hq he
          exact (hoccB ts ho).2 (he ▸ (hfreeB q.2 (hmemp q hq).2).2)
        rw [batchMove_dJ_not_target c _ _ hne _ g ts hnt]
        exact (hoccB ts ho).2
      · have : ts ∈ (recA.timeslots.zip recB.free_ts).map Prod.snd := by
          rw [hsnd_eq]
          exact htk
        obtain ⟨p, hp, hpts⟩ := List.mem_map.mp this
        refine ⟨(hfreeB ts (List.mem_of_mem_take htk)).1, ?_⟩
        rw [← hpts,
          batchMove_tgt_val c _ _ hne _ g hsnd_nodup hfst_nodup hfree_pairs p hp]
        exact (hoccA p.1 (hmemp p hp).1).2
    · rw [hdrop]
      intro ts hts
      refine ⟨(hfreeB ts (List.mem_of_mem_drop hts)).1, ?_⟩
      have hnt : ∀ q ∈ recA.timeslots.zip recB.free_ts, ts ≠ q.2 := by
        intro q hq he
        have hq2 : q.2 ∈ recB.free_ts.take recA.timeslots.length := by
          rw [← hsnd_eq]
          exact List.mem_map_of_mem Prod.snd hq
        have hts' : q.2 ∈ recB.free_ts.drop recA.timeslots.length := by
          rw [← he]
          exact hts
        exact List.disjoint_take_drop hnfB (le_refl _) hq2 hts'
      rw [batchMove_dJ_not_target c _ _ hne _ g ts hnt]
      exact (hfreeB ts (List.mem_of_mem_drop hts)).2
  · intro r hr hrA hrB
    obtain ⟨hd, hnd, hnf, hocc, hfree⟩ := hr
    refine ⟨hd, hnd, hnf, ?_, ?_⟩
    · intro ts hts
      refine ⟨(hocc ts hts).1, ?_⟩
      rw [batchMove_other_day c _ _ _ g (c, r.day, ts) hrA hrB]
      exact (hocc ts hts).2
    · intro ts hts
      refine ⟨(hfree ts hts).1, ?_⟩
      rw [batchMove_other_day c _ _ _ g (c, r.day, ts) hrA hrB]
      exact (hfree ts hts).2

theorem insertIdxByLen_perm (records : List DayRec) (k : Nat) :
    ∀ (js : List Nat), (insertIdxByLen records k js).Perm (k :: js) := by
  intro js
  induction js with
  | nil => exact List.Perm.refl _
  | cons j js ih =>
    show (if _ then j :: insertIdxByLen records k js else k :: j :: js).Perm _
    split
    · exact (ih.cons j).trans (List.Perm.swap k j js)
    · exact List.Perm.refl _

theorem sortIdxByLen_perm (records : List DayRec) :
    (sortIdxByLen records).Perm (List.range records.length) := by
  unfold sortIdxByLen
  generalize List.range records.length = l
  induction l with
  | nil => exact List.Perm.refl _
  | cons x l ih =>
    exact (insertIdxByLen_perm records x _).trans (ih.cons x)

theorem sortIdxByLen_permOK (records : List DayRec) :
    PermOK records (sortIdxByLen records) := by
  have hp := sortIdxByLen_perm records
  refine ⟨hp.symm.nodup (List.nodup_range _), ?_, ?_⟩
  · rw [hp.length_eq, List.length_range]
  · intro k hk
    exact List.mem_range.mp (hp.subset hk)

theorem map_getD_day (records : List DayRec) (n : Nat) (h : n < records.length) :
    (records.map DayRec.day).getD n 0 = (recAt records n).day := by
  unfold recAt
  rw [List.getD_eq_getElem _ _ (by simpa using h), List.getD_eq_getElem _ _ h,
    List.getElem_map]

theorem day_ne_of_pos {records : List DayRec}
    (hdays : (records.map DayRec.day).Nodup) {k n : Nat}
    (hk : k < records.length) (hn : n < records.length) (hne : k ≠ n) :
    (recAt records k).day ≠ (recAt records n).day := by
  rw [← map_getD_day records k hk, ← map_getD_day records n hn]
  refine nodup_getD_ne hdays (by simpa using hk) (by simpa using hn) hne 0

theorem map_day_set_set {records : List DayRec} {ii jj : Nat} {recA' recB' : DayRec}
    (hii : ii < records.length) (hjj : jj < records.length)
    (hdayA : recA'.day = (recAt records ii).day)
    (hdayB : recB'.day = (recAt records jj).day) :
    ((records.set ii recA').set jj recB').map DayRec.day = records.map DayRec.day := by
  have e1 : (records.map DayRec.day).set ii recA'.day = records.map DayRec.day := by
    rw [hdayA, ← map_getD_day records ii hii]
    exact list_set_getD_self 0 _ ii (by simpa using hii)
  have e2 : (records.map DayRec.day).set jj recB'.day = records.map DayRec.day := by
    rw [hdayB, ← map_getD_day records jj hjj]
    exact list_set_getD_self 0 _ jj (by simpa using hjj)
  rw [List.map_set, List.map_set, e1, e2]

theorem recsOK_after_set (cfg : Config) (g' : Grid) (c : Nat) {records : List DayRec}
    {ii jj : Nat} {recA' recB' : DayRec}
    (hii : ii < records.length) (hjj : jj < records.length) (hne : ii ≠ jj)
    (hdayA : recA'.day = (recAt records ii).day)
    (hdayB : recB'.day = (recAt records jj).day)
    (hdays : (records.map DayRec.day).Nodup)
    (hA : RecOK cfg g' c recA') (hB : RecOK cfg g' c recB')
    (hothers : ∀ k, k < records.length → k ≠ ii → k ≠ jj → RecOK cfg g' c (recAt records k)) :
    RecsOK cfg g' c ((records.set ii recA').set jj recB') := by
  constructor
  · intro r hr
    rw [List.mem_iff_getElem] at hr
    obtain ⟨k, hk, hkr⟩ := hr
    have hklen : k < records.length := by simpa using hk
    by_cases hkj : k = jj
    · subst hkj
      rw [List.getElem_set_self (by simpa using hklen)] at hkr
      exact hkr ▸ hB
    · rw [List.getElem_set_ne (fun h => hkj h.symm)] at hkr
      by_cases hki : k = ii
      · subst hki
        rw [List.getElem_set_self (by simpa using hklen)] at hkr
        exact hkr ▸ hA
      · rw [List.getElem_set_ne (fun h => hki h.symm)] at hkr
        have : recAt records k = r := by
          unfold recAt
          rw [List.getD_eq_getElem _ _ hklen]
          exact hkr
        exact this ▸ hothers k hklen hki hkj
  · rw [map_day_set_set hii hjj hdayA hdayB]
    exact hdays

/-- One executed branch of the `j` loop: the drain preserves the lesson
multiset and the updated record list stays sound. -/
theorem jBranch_inv (cfg : Config) (c : Nat) (hc : c < cfg.class_num)
    {g : Grid} {records : List DayRec} {ii jj : Nat}
    (hrec : RecsOK cfg g c records) (hii : ii < records.length)
    (hjj : jj < records.length) (hne : ii ≠ jj)
    (hlen : (recAt records ii).timeslots.length ≤ (recAt records jj).free_ts.length) :
    lessonsMultiset cfg (drainStep c (recAt records ii) (recAt records jj) g) =
      lessonsMultiset cfg g ∧
    RecsOK cfg (drainStep c (recAt records ii) (recAt records jj) g) c
      ((records.set ii (drainRecA (recAt records ii))).set jj
        (drainRecB (recAt records ii) (recAt records jj))) := by
  have hAi : RecOK cfg g c (recAt records ii) := hrec.1 _ (getD_mem hii _)
  have hBj : RecOK cfg g c (recAt records jj) := hrec.1 _ (getD_mem hjj _)
  have hdne : (recAt records ii).day ≠ (recAt records jj).day :=
    day_ne_of_pos hrec.2 hii hjj hne
  obtain ⟨hmul, hA', hB', hoth⟩ := drain_inv cfg g c _ _ hc hAi hBj hdne hlen
  refine ⟨hmul, ?_⟩
  refine recsOK_after_set cfg _ c hii hjj hne rfl rfl hrec.2 hA' hB' ?_
  intro k hk hki hkj
  exact hoth _ (hrec.1 _ (getD_mem hk _))
    (day_ne_of_pos hrec.2 hk hii hki) (day_ne_of_pos hrec.2 hk hjj hkj)

/-- The `j` loop preserves the lesson multiset and the records/permutation
invariants. -/
theorem jLoop_inv (cfg : Config) (c : Nat) (hc : c < cfg.class_num) (i : Nat) :
    ∀ (js : List Nat) (st : RepackState),
      RecsOK cfg st.g c st.records → PermOK st.records st.perm →
      i < st.records.length → (∀ j ∈ js, j < st.records.length ∧ i ≠ j) →
      lessonsMultiset cfg (jLoop cfg c i js st).g = lessonsMultiset cfg st.g ∧
      RecsOK cfg (jLoop cfg c i js st).g c (jLoop cfg c i js st).records ∧
      PermOK (jLoop cfg c i js st).records (jLoop cfg c i js st).perm ∧
      (jLoop cfg c i js st).records.length = st.records.length := by
  intro js
  induction js with
  | nil =>
    intro st h1 h2 _ _
    exact ⟨rfl, h1, h2, rfl⟩
  | cons j js ih =>
    intro st hrec hperm hi hjs
    obtain ⟨hj, hij⟩ := hjs j (List.mem_cons_self _ _)
    have hilen : i < st.perm.length := by rw [hperm.2.1]; exact hi
    have hjlen : j < st.perm.length := by rw [hperm.2.1]; exact hj
    have hii : st.perm.getD i 0 < st.records.length := hperm.2.2 _ (getD_mem hilen 0)
    have hjj : st.perm.getD j 0 < st.records.length := hperm.2.2 _ (getD_mem hjlen 0)
    have hiijj : st.perm.getD i 0 ≠ st.perm.getD j 0 :=
      nodup_getD_ne hperm.1 hilen hjlen hij 0
    simp only [jLoop]
    by_cases hb1 : (recAt st.records (st.perm.getD i 0)).timeslots.length ≤
        (recAt st.records (st.perm.getD j 0)).free_ts.length
    · rw [if_pos hb1]
      obtain ⟨hmul, hrec'⟩ := jBranch_inv cfg c hc hrec hii hjj hiijj hb1
      have hlen' : ((st.records.set (st.perm.getD i 0)
          (drainRecA (recAt st.records (st.perm.getD i 0)))).set (st.perm.getD j 0)
          (drainRecB (recAt st.records (st.perm.getD i 0))
            (recAt st.records (st.perm.getD j 0)))).length = st.records.length := by
        rw [List.length_set, List.length_set]
      by_cases hn : 0 < (recAt st.records (st.perm.getD i 0)).timeslots.length
      · rw [if_pos hn]
        exact ⟨hmul, hrec', sortIdxByLen_permOK _, hlen'⟩
      · rw [if_neg hn]
        have hperm' : PermOK ((st.records.set (st.perm.getD i 0)
            (drainRecA (recAt st.records (st.perm.getD i 0)))).set (st.perm.getD j 0)
            (drainRecB (recAt st.records (st.perm.getD i 0))
              (recAt st.records (st.perm.getD j 0)))) st.perm :=
          ⟨hperm.1, by rw [hlen']; exact hperm.2.1, fun k hk => hlen' ▸ hperm.2.2 k hk⟩
        obtain ⟨m1, r1, p1, l1⟩ := ih ⟨drainStep c (recAt st.records (st.perm.getD i 0))
            (recAt st.records (st.perm.getD j 0)) st.g,
          (st.records.set (st.perm.getD i 0)
            (drainRecA (recAt st.records (st.perm.getD i 0)))).set (st.perm.getD j 0)
            (drainRecB (recAt st.records (st.perm.getD i 0))
              (recAt st.records (st.perm.getD j 0))), st.perm, false⟩ hrec' hperm'
          (by rw [hlen']; exact hi)
          (fun j' hj' => ⟨by rw [hlen']; exact (hjs j' (List.mem_cons_of_mem _ hj')).1,
            (hjs j' (List.mem_cons_of_mem _ hj')).2⟩)
        exact ⟨m1.trans hmul, r1, p1, l1.trans hlen'⟩
    · rw [if_neg hb1]
      by_cases hb2 : (recAt st.records (st.perm.getD j 0)).timeslots.length <
          (recAt st.records (st.perm.getD i 0)).free_ts.length
      · rw [if_pos hb2]
        obtain ⟨hmul, hrec'⟩ := jBranch_inv cfg c hc hrec hjj hii hiijj.symm (le_of_lt hb2)
        have hlen' : ((st.records.set (st.perm.getD j 0)
            (drainRecA (recAt st.records (st.perm.getD j 0)))).set (st.perm.getD i 0)
            (drainRecB (recAt st.records (st.perm.getD j 0))
              (recAt st.records (st.perm.getD i 0)))).length = st.records.length := by
          rw [List.length_set, List.length_set]
        by_cases hn : 0 < (recAt st.records (st.perm.getD j 0)).timeslots.length
        · rw [if_pos hn]
          exact ⟨hmul, hrec', sortIdxByLen_permOK _, hlen'⟩
        · rw [if_neg hn]
          have hperm' : PermOK ((st.records.set (st.perm.getD j 0)
              (drainRecA (recAt st.records (st.perm.getD j 0)))).set (st.perm.getD i 0)
              (drainRecB (recAt st.records (st.perm.getD j 0))
                (recAt st.records (st.perm.getD i 0)))) st.perm :=
            ⟨hperm.1, by rw [hlen']; exact hperm.2.1, fun k hk => hlen' ▸ hperm.2.2 k hk⟩
          obtain ⟨m1, r1, p1, l1⟩ := ih ⟨drainStep c (recAt st.records (st.perm.getD j 0))
              (recAt st.records (st.perm.getD i 0)) st.g,
            (st.records.set (st.perm.getD j 0)
              (drainRecA (recAt st.records (st.perm.getD j 0)))).set (st.perm.getD i 0)
              (drainRecB (recAt st.records (st.perm.getD j 0))
                (recAt st.records (st.perm.getD i 0))), st.perm, false⟩ hrec' hperm'
            (by rw [hlen']; exact hi)
            (fun j' hj' => ⟨by rw [hlen']; exact (hjs j' (List.mem_cons_of_mem _ hj')).1,
              (hjs j' (List.mem_cons_of_mem _ hj')).2⟩)
          exact ⟨m1.trans hmul, r1, p1, l1.trans hlen'⟩
      · rw [if_neg hb2]
        exact ih ⟨st.g, st.records, st.perm, false⟩ hrec hperm hi
          (fun j' hj' => hjs j' (List.mem_cons_of_mem _ hj'))

theorem iLoop_inv (cfg : Config) (c : Nat) (hc : c < cfg.class_num) :
    ∀ (is' : List Nat) (st : RepackState),
      RecsOK cfg st.g c st.records → PermOK st.records st.perm →
      lessonsMultiset cfg (iLoop cfg c is' st).g = lessonsMultiset cfg st.g ∧
      RecsOK cfg (iLoop cfg c is' st).g c (iLoop cfg c is' st).records ∧
      PermOK (iLoop cfg c is' st).records (iLoop cfg c is' st).perm ∧
      (iLoop cfg c is' st).records.length = st.records.length := by
  intro is'
  induction is' with
  | nil =>
    intro st h1 h2
    exact ⟨rfl, h1, h2, rfl⟩
  | cons i is ih =>
    intro st hrec hperm
    by_cases hi : i < st.records.length
    · have hjs : ∀ j ∈ List.range' (i + 1) (st.records.length - (i + 1)),
          j < st.records.length ∧ i ≠ j := by
        intro j hj
        rw [List.mem_range'_1] at hj
        omega
      obtain ⟨m1, r1, p1, l1⟩ := jLoop_inv cfg c hc i _ st hrec hperm hi hjs
      obtain ⟨m2, r2, p2, l2⟩ := ih _ r1 p1
      exact ⟨m2.trans m1, r2, p2, l2.trans l1⟩
    · have hempty : st.records.length - (i + 1) = 0 := by omega
      simp only [iLoop]
      rw [hempty]
      exact ih st hrec hperm

theorem scanClassroom_ok (cfg : Config) (g : Grid) (c instrId : Nat) :
    RecsOK cfg g c (scanClassroom cfg g c instrId []) := by
  constructor
  · intro r hr
    unfold scanClassroom at hr
    rw [List.nil_append] at hr
    obtain ⟨d, hd, hfd⟩ := List.mem_filterMap.mp hr
    by_cases hpos : 0 < (scanDay cfg g c d instrId).1.length
    · rw [if_pos hpos] at hfd
      cases Option.some.inj hfd
      refine ⟨List.mem_range.mp hd, ?_, ?_, ?_, ?_⟩
      · exact (List.nodup_range _).filter _
      · exact (List.nodup_range _).filter _
      · intro ts hts
        have hts' := List.mem_filter.mp hts
        refine ⟨List.mem_range.mp hts'.1, ?_⟩
        show g (c, d, ts) ≠ none
        rcases hg : g (c, d, ts) with _ | L
        · exfalso
          have hm := hts'.2
          rw [hg] at hm
          simp at hm
        · exact fun h => Option.noConfusion h
      · intro ts hts
        have hts' := List.mem_filter.mp hts
        show ts < cfg.time_slot_num ∧ g (c, d, ts) = none
        exact ⟨List.mem_range.mp hts'.1, of_decide_eq_true hts'.2⟩
    · rw [if_neg hpos] at hfd
      exact Option.noConfusion hfd
  · unfold scanClassroom
    rw [List.nil_append, List.map_filterMap]
    refine List.Nodup.filterMap ?_ (List.nodup_range _)
    intro a a' b hb hb'
    have ha : b = a := by
      rcases Option.map_eq_some'.mp (Option.mem_def.mp hb) with ⟨r, hr, hrb⟩
      by_cases hp : 0 < (scanDay cfg g c a instrId).1.length
      · rw [if_pos hp] at hr
        cases Option.some.inj hr
        exact hrb.symm
      · rw [if_neg hp] at hr
        exact Option.noConfusion hr
    have ha' : b = a' := by
      rcases Option.map_eq_some'.mp (Option.mem_def.mp hb') with ⟨r, hr, hrb⟩
      by_cases hp : 0 < (scanDay cfg g c a' instrId).1.length
      · rw [if_pos hp] at hr
        cases Option.some.inj hr
        exact hrb.symm
      · rw [if_neg hp] at hr
        exact Option.noConfusion hr
    rw [← ha, ha']

/-- With a single classroom, one classroom pass preserves the lesson
multiset: every record it repacks with was scanned from the live grid. -/
theorem classroomPass_single (cfg : Config) (hc1 : cfg.class_num = 1)
    (instrId : Nat) (g : Grid) (changed : Bool) :
    lessonsMultiset cfg
      (classroomPass cfg instrId (List.range cfg.class_num) g [] changed).1 =
      lessonsMultiset cfg g := by
  have hr1 : List.range cfg.class_num = [0] := by
    rw [hc1]
    rfl
  rw [hr1]
  have hc : 0 < cfg.class_num := by omega
  simp only [classroomPass]
  exact (iLoop_inv cfg 0 hc _ _ (scanClassroom_ok cfg g 0 instrId)
    (sortIdxByLen_permOK _)).1

/-- With a single classroom, one full instructor sweep preserves the lesson
multiset. -/
theorem onePass_multiset (cfg : Config) (hc1 : cfg.class_num = 1) :
    ∀ (instructors : List Instructor) (g : Grid) (changed : Bool),
      lessonsMultiset cfg (onePass cfg instructors g changed).1 = lessonsMultiset cfg g := by
  intro instructors
  induction instructors with
  | nil => intro g changed; rfl
  | cons ins rest ih =>
    intro g changed
    show lessonsMultiset cfg (onePass cfg rest
      (classroomPass cfg ins.id (List.range cfg.class_num) g [] changed).1
      (classroomPass cfg ins.id (List.range cfg.class_num) g [] changed).2.2).1 = _
    rw [ih _ _, classroomPass_single cfg hc1 ins.id g changed]

theorem improve_results_multiset (cfg : Config) (hc1 : cfg.class_num = 1)
    (instructors : List Instructor) :
    ∀ (fuel : Nat) (g g' : Grid), improve_results cfg instructors fuel g = some g' →
      lessonsMultiset cfg g' = lessonsMultiset cfg g := by
  intro fuel
  induction fuel with
  | zero =>
    intro g g' h
    exact Option.noConfusion h
  | succ fuel ih =>
    intro g g' h
    simp only [improve_results] at h
    by_cases hch : (onePass cfg instructors g false).2 = true
    · rw [if_pos hch] at h
      exact (ih _ g' h).trans (onePass_multiset cfg hc1 instructors g false)
    · rw [if_neg hch] at h
      cases Option.some.inj h
      exact onePass_multiset cfg hc1 instructors g false

/-- C2 counterexample: on a 1×2×2 schedule with one instructor teaching one
lesson on each day, `improve_results` consolidates both lessons onto one day
and `get_cost` changes from −520 to −270 (one presence payment and one
classroom-day rent are saved), so the pass does not leave `get_cost`
unchanged. -/
theorem C2_counterexample :
    (improve_results cfgC2 instructorsC2 2 gC2).map (get_cost cfgC2) =
        some (some (-270)) ∧
      get_cost cfgC2 gC2 = some (-520) := by
  constructor
  · decide
  · decide

/-- C2 (amended): on single-classroom schedules `improve_results` only
relocates already-placed lessons — it preserves the multiset of
(instructor, category, participant-list) lessons present in the grid — but
it does not preserve `get_cost`: consolidating an instructor's days changes
the score by the freed presence-day and classroom-rental payments.  (With
more than one classroom even the relocation guarantee is void: the
`trainings` list is not reset per classroom, so a later classroom repacks
with slot data scanned from an earlier one and can overwrite occupied
cells.) -/
theorem C2_amended_improve_results_relocates (cfg : Config)
    (instructors : List Instructor) (fuel : Nat) (g g' : Grid)
    (hc1 : cfg.class_num = 1)
    (h : improve_results cfg instructors fuel g = some g') :
    lessonsMultiset cfg g' = lessonsMultiset cfg g :=
  improve_results_multiset cfg hc1 instructors fuel g g' h

theorem C2_witness : lessonsMultiset cfgC2 gC2' = lessonsMultiset cfgC2 gC2 :=
  C2_amended_improve_results_relocates cfgC2 instructorsC2 2 gC2 gC2' rfl rfl
